import Mathlib

/-!
# Verification of the VIM loader core (vim-webgl-viewer)

A shallow embedding of the decode-and-reconstruct pipeline of the
`vim-webgl-viewer` repository (the `VIMLoader` class and the attribute-lookup
surface of `Viewer`), together with theorems settling the frozen claims about
the natural-language specification.

Modelling conventions:
* JavaScript strings are lists of UTF-16 code units (`JSString := List Nat`).
* Byte buffers are `List Nat` (each entry < 256); typed-array *values* are
  modelled (`Int` for `Int32Array`, `ℚ` for `Float32Array`/`Float64Array` —
  the claims under study do not hinge on floating-point rounding).
* Thrown JavaScript errors are an inductive `JsErr`; fallible code returns
  `Except JsErr _`.
* Platform primitives used by the source (`TextDecoder`, typed-array
  clamping/out-of-range semantics, `THREE` math) are embedded following
  their documented ECMAScript / three.js (r133) semantics.
-/

set_option linter.unusedVariables false
set_option maxRecDepth 8000

namespace VimSpec

/-- A JavaScript string: a list of UTF-16 code units. -/
def JSString : Type := List Nat

instance : DecidableEq JSString := by
  unfold JSString; infer_instance

instance : Append JSString := ⟨List.append⟩

/-- Code units of a Lean string literal (all our literals are ASCII/BMP,
where the code point equals the UTF-16 code unit). -/
def strUnits (s : String) : JSString := s.data.map Char.toNat

/-- UTF-16 encoding of a single code point (surrogate pair above U+FFFF). -/
def utf16Units (cp : Nat) : List Nat :=
  if cp < 0x10000 then [cp]
  else [0xD800 + (cp - 0x10000) / 0x400, 0xDC00 + (cp - 0x10000) % 0x400]

/-- Is `b` a UTF-8 continuation byte (`0x80..0xBF`)? -/
def isCont (b : Nat) : Bool := 0x80 ≤ b && b ≤ 0xBF

/-- Worker of `utf8Decode` with structural fuel (the fuel is the byte count,
and every step consumes at least one byte, so it never runs out). -/
def utf8DecodeGo : Nat → List Nat → List Nat
  | 0, _ => []
  | _, [] => []
  | fuel + 1, b0 :: rest =>
    if b0 < 0x80 then b0 :: utf8DecodeGo fuel rest
    else if 0xC2 ≤ b0 && b0 ≤ 0xDF then
      match rest with
      | b1 :: rest1 =>
        if isCont b1 then
          ((b0 - 0xC0) * 0x40 + (b1 - 0x80)) :: utf8DecodeGo fuel rest1
        else 0xFFFD :: utf8DecodeGo fuel (b1 :: rest1)
      | [] => [0xFFFD]
    else if 0xE0 ≤ b0 && b0 ≤ 0xEF then
      match rest with
      | b1 :: b2 :: rest2 =>
        let lo1 := if b0 = 0xE0 then 0xA0 else 0x80
        let hi1 := if b0 = 0xED then 0x9F else 0xBF
        if (lo1 ≤ b1 && b1 ≤ hi1) && isCont b2 then
          utf16Units ((b0 - 0xE0) * 0x1000 + (b1 - 0x80) * 0x40 + (b2 - 0x80))
            ++ utf8DecodeGo fuel rest2
        else 0xFFFD :: utf8DecodeGo fuel (b1 :: b2 :: rest2)
      | _ => [0xFFFD]
    else if 0xF0 ≤ b0 && b0 ≤ 0xF4 then
      match rest with
      | b1 :: b2 :: b3 :: rest3 =>
        let lo1 := if b0 = 0xF0 then 0x90 else 0x80
        let hi1 := if b0 = 0xF4 then 0x8F else 0xBF
        if (lo1 ≤ b1 && b1 ≤ hi1) && isCont b2 && isCont b3 then
          utf16Units ((b0 - 0xF0) * 0x40000 + (b1 - 0x80) * 0x1000
              + (b2 - 0x80) * 0x40 + (b3 - 0x80))
            ++ utf8DecodeGo fuel rest3
        else 0xFFFD :: utf8DecodeGo fuel (b1 :: b2 :: b3 :: rest3)
      | _ => [0xFFFD]
    else 0xFFFD :: utf8DecodeGo fuel rest

/-- Model of `new TextDecoder('utf-8').decode(bytes)` (non-fatal mode):
well-formed UTF-8 sequences decode to their code points (emitted as UTF-16
code units); a malformed byte yields the replacement character U+FFFD.
All buffers appearing in the claims are ASCII, where every correct decoder
agrees. -/
def utf8Decode (bytes : List Nat) : List Nat :=
  utf8DecodeGo bytes.length bytes

/-- JavaScript `s.split(sep)` for a one-character separator `sep`:
splits at every occurrence; `"".split(sep)` is `[""]`. -/
def splitOnUnit (sep : Nat) : List Nat → List JSString
  | [] => [([] : List Nat)]
  | c :: rest =>
    let tail := splitOnUnit sep rest
    if c = sep then ([] : List Nat) :: tail
    else
      match tail with
      | [] => [[c]]
      | t :: ts => (c :: t) :: ts

/-- Thrown JavaScript errors of the embedded code, one constructor per
`throw`/`TypeError`/`RangeError` site. -/
inductive JsErr where
  /-- `BFastHeader.fromArray`: a reserved header word is non-zero. -/
  | headerReservedNonZero (wordIndex : Nat)
  /-- `BFastHeader` validation: data start out of valid range. -/
  | headerDataStartOutOfRange
  /-- `BFastHeader` validation: data end out of valid range. -/
  | headerDataEndOutOfRange
  /-- `BFastHeader` validation: negative array count. -/
  | headerNegativeArrayCount
  /-- The input is too short to hold the 8-word header. -/
  | headerTruncated
  /-- `parseBFast`: `'Expected 0 in position ...'` for a descriptor word. -/
  | expectedZero (bytePos : Int)
  /-- `parseBFast`: `'Buffer start is out of range'`. -/
  | bufferStartOutOfRange
  /-- `parseBFast`: `'Buffer end is out of range'`. -/
  | bufferEndOutOfRange
  /-- `parseBFast`: `'Expected at least one buffer containing the names'`. -/
  | atLeastOneBuffer
  /-- `parseBFast`: `'Expected number of names to be equal to the number of buffers - 1'`. -/
  | nameCountMismatch
  /-- A platform `RangeError` (typed-array view outside its buffer). -/
  | rangeError
  /-- A platform `TypeError` (property access on `undefined`). -/
  | typeError
  /-- `constructEntityTable`: `'Unrecognized column type ...'`. -/
  | unknownColumnType (tag : JSString)
  /-- Merging an empty geometry list (`mergeBufferGeometries([])` crashes). -/
  | mergeEmpty
deriving DecidableEq

/-- Little-endian unsigned value of four bytes. -/
def leWord (b0 b1 b2 b3 : Nat) : Nat :=
  b0 + 0x100 * b1 + 0x10000 * b2 + 0x1000000 * b3

/-- Reinterpret an unsigned 32-bit value as a signed `Int32`. -/
def toInt32 (n : Nat) : Int :=
  let m : Nat := n % 2 ^ 32
  if m < 2 ^ 31 then (m : Int) else (m : Int) - 2 ^ 32

/-- The consecutive 32-bit little-endian words of a byte list
(the `Int32Array` view; a trailing fragment shorter than 4 bytes is dropped,
as the view length is `⌊byteLength/4⌋`). -/
def int32Words : List Nat → List Int
  | b0 :: b1 :: b2 :: b3 :: rest => toInt32 (leWord b0 b1 b2 b3) :: int32Words rest
  | _ => []

/-- Typed-array read `a[i]` with an `Int` index: `undefined` (`none`) when the
index is negative or out of range. -/
def jsIdx (l : List α) (i : Int) : Option α :=
  if h : 0 ≤ i ∧ i.toNat < l.length then some (l.get ⟨i.toNat, h.2⟩) else none

/-- JavaScript `undefined !== 0` test on an optional word: `undefined` compares
unequal to `0`. -/
def jsNeqZero : Option Int → Bool
  | none => true
  | some v => v ≠ 0

/-- JavaScript `<` where the left operand may be `undefined`
(`undefined < x` is `false`). -/
def jsLt : Option Int → Int → Bool
  | none, _ => false
  | some v, w => v < w

/-- JavaScript `>` where the left operand may be `undefined`. -/
def jsGt : Option Int → Int → Bool
  | none, _ => false
  | some v, w => w < v

/-- Clamp one bound of `TypedArray.prototype.subarray` (negative counts from
the end; results clamp into `[0, length]`). -/
def jsClampIndex (len : Nat) (i : Int) : Nat :=
  if i < 0 then (max ((len : Int) + i) 0).toNat else min i.toNat len

/-- `a.subarray(begin, end)` (here by value: the claims that concern aliasing
model the shared buffer explicitly instead). -/
def jsSubarray (l : List α) (a b : Int) : List α :=
  let s := jsClampIndex l.length a
  let e := jsClampIndex l.length b
  (l.drop s).take (e - s)

/-- The integer range `[a, b)` as a list (the `for (let i = a; i < b; i++)`
iteration space). -/
def intRange (a b : Int) : List Int :=
  (List.range (b - a).toNat).map (fun k => a + (k : Int))

end VimSpec

namespace VimSpec

/-- JavaScript `<` where both operands may be `undefined` (any comparison
with `undefined` is `false`). -/
def jsLt2 : Option Int → Option Int → Bool
  | some v, some w => v < w
  | _, _ => false

/-- The parsed BFAST container header fields (64-bit fields read through the
32-bit view: low word carries the value, high word is reserved). -/
structure BFastHeader where
  magic : Int
  dataStart : Int
  dataEnd : Int
  numArrays : Int
deriving DecidableEq

/-- Modelled from the spec: `BFastHeader.fromArray` lives in `bfast.ts`, which
is not among the sources under study (only its caller `VIMLoader.parseBFast`
is). Per the spec, the header is 8 little-endian 32-bit words — magic/version
fields plus `numArrays`, `dataStart`, `dataEnd` as 64-bit fields whose
reserved high words must equal 0 — the data region follows the 32-byte header
and lies inside the input, and array ranges live in `[dataStart, dataEnd]`. -/
def BFastHeader.fromArray (data : List Int) (byteLength : Int) :
    Except JsErr BFastHeader :=
  if data.length < 8 then .error .headerTruncated
  else if jsNeqZero (jsIdx data 1) then .error (.headerReservedNonZero 1)
  else if jsNeqZero (jsIdx data 3) then .error (.headerReservedNonZero 3)
  else if jsNeqZero (jsIdx data 5) then .error (.headerReservedNonZero 5)
  else if jsNeqZero (jsIdx data 7) then .error (.headerReservedNonZero 7)
  else
    let magic := (jsIdx data 0).getD 0
    let dataStart := (jsIdx data 2).getD 0
    let dataEnd := (jsIdx data 4).getD 0
    let numArrays := (jsIdx data 6).getD 0
    if dataStart < 32 ∨ byteLength < dataStart then
      .error .headerDataStartOutOfRange
    else if dataEnd < dataStart ∨ byteLength < dataEnd then
      .error .headerDataEndOutOfRange
    else if numArrays < 0 then .error .headerNegativeArrayCount
    else .ok ⟨magic, dataStart, dataEnd, numArrays⟩

/-- The value returned by `parseBFast`: header, buffer names, and the raw
buffers (the name buffer already split off). -/
structure BFast where
  header : BFastHeader
  names : List JSString
  buffers : List (List Nat)
deriving DecidableEq

/-- The descriptor-reading loop of `VIMLoader.parseBFast`: one iteration per
declared array, reading the 4-word descriptor `[begin, 0, end, 0]` at word
position `pos` and slicing `[begin+byteOffset, end+byteOffset)` out of the
input bytes (`new Uint8Array(arrayBuffer, begin + byteOffset, end - begin)`;
a slice outside the underlying buffer is a platform `RangeError`). -/
def parseBuffers (data : List Int) (bytes : List Nat) (byteOffset : Nat)
    (header : BFastHeader) : Nat → Nat → Except JsErr (List (List Nat))
  | 0, _ => .ok []
  | n + 1, pos =>
    let begin? := jsIdx data (pos : Int)
    let end? := jsIdx data ((pos : Int) + 2)
    if jsNeqZero (jsIdx data ((pos : Int) + 1)) then
      .error (.expectedZero (((pos : Int) + 1) * 4))
    else if jsNeqZero (jsIdx data ((pos : Int) + 3)) then
      .error (.expectedZero (((pos : Int) + 3) * 4))
    else if jsLt begin? header.dataStart || jsGt begin? header.dataEnd then
      .error .bufferStartOutOfRange
    else if jsLt2 end? begin? || jsGt end? header.dataEnd then
      .error .bufferEndOutOfRange
    else
      -- `ToIndex(NaN) = 0`: an undefined word makes offset/length zero
      let start : Int := match begin? with
        | some v => v + byteOffset
        | none => 0
      let len : Int := match begin?, end? with
        | some vb, some ve => ve - vb
        | _, _ => 0
      if start < 0 ∨ len < 0 ∨ (bytes.length : Int) < start + len then
        .error .rangeError
      else
        let buffer := (bytes.drop start.toNat).take len.toNat
        match parseBuffers data bytes byteOffset header n (pos + 4) with
        | .error e => .error e
        | .ok rest => .ok (buffer :: rest)

/-- The name-splitting rule of `parseBFast` applied to the first buffer:
`TextDecoder.decode`, then `slice(0, -1)` (drop the final code unit), then
`split('\0')`; an empty decoded string yields no names. -/
def bfastNameSplit (buffer : List Nat) : List JSString :=
  let joinedNames := utf8Decode buffer
  if joinedNames.length = 0 then ([] : List JSString)
  else splitOnUnit 0 joinedNames.dropLast

/-- `VIMLoader.parseBFast`: casts the input range to a 32-bit word view,
parses the header, reads one buffer per declared array, and splits the first
buffer into the NUL-joined name list (dropping the final NUL; an empty name
buffer yields no names). -/
def parseBFast (bytes : List Nat) (byteOffset : Nat) (byteLength : Nat) :
    Except JsErr BFast :=
  -- `new Int32Array(arrayBuffer, byteOffset, byteLength / 4)`
  if byteOffset % 4 ≠ 0 then .error .rangeError
  else if bytes.length < byteOffset + 4 * (byteLength / 4) then .error .rangeError
  else
    let data := int32Words ((bytes.drop byteOffset).take (4 * (byteLength / 4)))
    match BFastHeader.fromArray data byteLength with
    | .error e => .error e
    | .ok header =>
      match parseBuffers data bytes byteOffset header header.numArrays.toNat 8 with
      | .error e => .error e
      | .ok buffers =>
        if (buffers.length : Int) < 0 then .error .atLeastOneBuffer
        -- `TextDecoder.decode(buffers[0])`; `decode(undefined)` is `''`
        else
          let names := bfastNameSplit ((buffers.get? 0).getD [])
          if (names.length : Int) ≠ (buffers.length : Int) - 1 then
            .error .nameCountMismatch
          else .ok ⟨header, names, buffers.drop 1⟩

/-- `VIMLoader.parseBFastFromArray`: re-parse a buffer as a nested container
(buffers are modelled by value, so the view starts at offset 0). -/
def parseBFastFromArray (b : List Nat) : Except JsErr BFast :=
  parseBFast b 0 b.length

end VimSpec

namespace VimSpec

/-- Insertion-ordered map (`Map` from JavaScript): `set` overwrites in place
or appends a fresh key at the end. -/
def mapSet [DecidableEq κ] : List (κ × ν) → κ → ν → List (κ × ν)
  | [], k, v => [(k, v)]
  | (k', v') :: rest, k, v =>
    if k' = k then (k, v) :: rest else (k', v') :: mapSet rest k v

/-- `Map.prototype.get`: the value bound to `k`, or `undefined`. -/
def mapGet [DecidableEq κ] : List (κ × ν) → κ → Option ν
  | [], _ => none
  | (k', v') :: rest, k => if k' = k then some v' else mapGet rest k

/-- A decoded entity-table column, as stored by `constructEntityTable`:
an 8-byte float view, a 4-byte signed-integer view, or the uninterpreted
byte range (float contents are kept as raw 8-byte chunks — their IEEE-754
reading is a platform reinterpretation the claims never inspect). -/
inductive ColumnData where
  | float64View (chunks : List (List Nat))
  | int32View (values : List Int)
  | rawBytes (bytes : List Nat)
deriving DecidableEq

/-- The consecutive 8-byte groups of a byte list (the `Float64Array` view
shape: `⌊byteLength/8⌋` elements). -/
def chunk8 : List Nat → List (List Nat)
  | b0 :: b1 :: b2 :: b3 :: b4 :: b5 :: b6 :: b7 :: rest =>
    [b0, b1, b2, b3, b4, b5, b6, b7] :: chunk8 rest
  | _ => []

/-- The loop of `VIMLoader.constructEntityTable`, iterating `i` over the
buffers (modelled by walking the name and buffer lists in step — `names[i]`
is the head of the remaining name list): split the name on `':'`, take
`tmp[0]` as the type tag and `tmp[1]` as the column name (possibly
`undefined`), and dispatch on the tag; the `properties` branch stores the raw
buffer under the literal key `'properties'`; an unrecognized tag throws. -/
def constructEntityTableGo :
    List JSString → List (List Nat) → List (Option JSString × ColumnData) →
    Except JsErr (List (Option JSString × ColumnData))
  | _, [], result => .ok result
  | [], _ :: _, _ => .error .typeError -- `undefined.split`: names too short
  | name :: names, buffer :: buffers, result =>
    let tmp := splitOnUnit 58 name
    let columnType := tmp.headD []
    let columnName : Option JSString := tmp.get? 1
    if columnType = strUnits "numeric" then
      constructEntityTableGo names buffers
        (mapSet result columnName (.float64View (chunk8 buffer)))
    else if columnType = strUnits "string" ∨ columnType = strUnits "index" then
      constructEntityTableGo names buffers
        (mapSet result columnName (.int32View (int32Words buffer)))
    else if columnType = strUnits "properties" then
      constructEntityTableGo names buffers
        (mapSet result (some (strUnits "properties")) (.rawBytes buffer))
    else .error (.unknownColumnType columnType)

/-- `VIMLoader.constructEntityTable`: decode one nested container's buffers
into a column map. -/
def constructEntityTable (bfast : BFast) :
    Except JsErr (List (Option JSString × ColumnData)) :=
  constructEntityTableGo bfast.names bfast.buffers []

/-- The strings decoding step of `VIMLoader.constructVIM`:
`new TextDecoder('utf-8').decode(stringData).split('\0')`. -/
def constructVIMStrings (stringData : List Nat) : List JSString :=
  splitOnUnit 0 (utf8Decode stringData)

/-- An entity table as the viewer reads it: column name → integer column. -/
def EntityTableV : Type := List (JSString × List Int)

instance : DecidableEq EntityTableV := by
  unfold EntityTableV; infer_instance

/-- The `vim.bim` map: table name → entity table. -/
def BimV : Type := List (JSString × EntityTableV)

instance : DecidableEq BimV := by
  unfold BimV; infer_instance

/-- `Viewer.getElementNameFromNodeIndex`: the 3-hop lookup
`node → element index → element-name string index → string`.
A missing *table or column* makes the JavaScript dereference `undefined`
(`.get` of `undefined` / indexing `undefined`), which throws a `TypeError`;
a missing *index entry* reads `undefined` out of the typed array and flows
through to an `undefined` name. -/
def getElementNameFromNodeIndex (bim : BimV) (strings : List JSString)
    (nodeIndex : Int) : Except JsErr (Option JSString) :=
  match mapGet bim (strUnits "Vim.Node") with
  | none => .error .typeError -- `.get` on undefined
  | some nodeTable =>
    match mapGet nodeTable (strUnits "Rvt.Element") with
    | none => .error .typeError -- indexing undefined
    | some elemCol =>
      let elementIndex := jsIdx elemCol nodeIndex
      match mapGet bim (strUnits "Rvt.Element") with
      | none => .error .typeError
      | some elemTable =>
        match mapGet elemTable (strUnits "Name") with
        | none => .error .typeError
        | some nameCol =>
          let stringIndex := elementIndex.bind (fun e => jsIdx nameCol e)
          .ok (stringIndex.bind (fun s => jsIdx strings s))

end VimSpec

namespace VimSpec

/-- Integer square root by the classic divide-by-4 recurrence, with
structural fuel (`⌊log₄ n⌋ + 1` steps suffice, so fuel `n` never runs out). -/
def isqrtGo : Nat → Nat → Nat
  | 0, _ => 0
  | fuel + 1, n =>
    if n < 2 then n
    else
      let r := 2 * isqrtGo fuel (n / 4)
      if (r + 1) * (r + 1) ≤ n then r + 1 else r

/-- `⌊√n⌋`. -/
def intSqrt (n : Nat) : Nat := isqrtGo n n

/-- `Math.sqrt` on the rationals arising here: exact on perfect-square
rationals (every square root taken in the claims' computations is of a
perfect square; elsewhere this is the integer floor approximation, never
relied upon). -/
def ratSqrt (q : ℚ) : ℚ := (intSqrt q.num.toNat : ℚ) / (intSqrt q.den : ℚ)

/-- A `THREE.Vector3`. -/
structure Vec3 where
  x : ℚ
  y : ℚ
  z : ℚ
deriving DecidableEq

/-- A `THREE.Sphere` (default instance: center origin, radius `-1`). -/
structure SphereM where
  center : Vec3
  radius : ℚ
deriving DecidableEq

/-- A `THREE.Color` (r, g, b). -/
structure ColorM where
  r : ℚ
  g : ℚ
  b : ℚ
deriving DecidableEq

def vadd (a b : Vec3) : Vec3 := ⟨a.x + b.x, a.y + b.y, a.z + b.z⟩

def vsub (a b : Vec3) : Vec3 := ⟨a.x - b.x, a.y - b.y, a.z - b.z⟩

def vscale (c : ℚ) (v : Vec3) : Vec3 := ⟨c * v.x, c * v.y, c * v.z⟩

def vlenSq (v : Vec3) : ℚ := v.x * v.x + v.y * v.y + v.z * v.z

def vdistSq (a b : Vec3) : ℚ := vlenSq (vsub a b)

def vmin (a b : Vec3) : Vec3 := ⟨min a.x b.x, min a.y b.y, min a.z b.z⟩

def vmax (a b : Vec3) : Vec3 := ⟨max a.x b.x, max a.y b.y, max a.z b.z⟩

/-- `Vector3.normalize`: divide by `length || 1` (a zero-length vector is
left unchanged). -/
def vnormalize (v : Vec3) : Vec3 :=
  let l := ratSqrt (vlenSq v)
  if l = 0 then v else vscale (1 / l) v

/-- A `THREE.Matrix4`: 16 column-major elements (the loader sets
`matrix.elements` directly from a 16-entry slice of the instance-transform
array, which is stored column-major). -/
def Mat4 : Type := List ℚ

instance : DecidableEq Mat4 := by
  unfold Mat4; infer_instance

/-- Element read `matrix.elements[i]` (all matrices in the pipeline carry the
full 16 entries). -/
def matEl (m : Mat4) (i : Nat) : ℚ := m.getD i 0

/-- `Vector3.applyMatrix4`: full projective transform with the perspective
divide (`w = 1` for the affine instance transforms in use; Lean's `1/0 = 0`
stands in for the unreachable `w = 0` case). -/
def vecApplyMatrix4 (m : Mat4) (v : Vec3) : Vec3 :=
  let w := matEl m 3 * v.x + matEl m 7 * v.y + matEl m 11 * v.z + matEl m 15
  let invW := 1 / w
  ⟨(matEl m 0 * v.x + matEl m 4 * v.y + matEl m 8 * v.z + matEl m 12) * invW,
   (matEl m 1 * v.x + matEl m 5 * v.y + matEl m 9 * v.z + matEl m 13) * invW,
   (matEl m 2 * v.x + matEl m 6 * v.y + matEl m 10 * v.z + matEl m 14) * invW⟩

/-- `Matrix4.getMaxScaleOnAxis`: √ of the largest squared column norm of the
upper-left 3×3 block. -/
def maxScaleOnAxis (m : Mat4) : ℚ :=
  let sx := matEl m 0 * matEl m 0 + matEl m 1 * matEl m 1 + matEl m 2 * matEl m 2
  let sy := matEl m 4 * matEl m 4 + matEl m 5 * matEl m 5 + matEl m 6 * matEl m 6
  let sz := matEl m 8 * matEl m 8 + matEl m 9 * matEl m 9 + matEl m 10 * matEl m 10
  ratSqrt (max (max sx sy) sz)

/-- `Sphere.applyMatrix4`: transform the center, scale the radius by the
matrix's maximum axis scale. -/
def sphereApplyMatrix4 (m : Mat4) (s : SphereM) : SphereM :=
  ⟨vecApplyMatrix4 m s.center, s.radius * maxScaleOnAxis m⟩

/-- `Sphere.expandByPoint` (three.js r133): grow the sphere minimally so it
contains `p`. -/
def expandByPoint (s : SphereM) (p : Vec3) : SphereM :=
  let d := vsub p s.center
  let lengthSq := vlenSq d
  if s.radius * s.radius < lengthSq then
    let length := ratSqrt lengthSq
    let delta := (length - s.radius) / 2
    ⟨vadd s.center (vscale (delta / length) d), s.radius + delta⟩
  else s

/-- `Sphere.union` (three.js r133): expand `s` by the two extreme points of
`other` along the line of centers (along `+z` when the centers coincide). -/
def sphereUnion (s other : SphereM) : SphereM :=
  let toFarthest :=
    if s.center = other.center then vscale other.radius ⟨0, 0, 1⟩
    else vscale other.radius (vnormalize (vsub other.center s.center))
  let s1 := expandByPoint s (vadd other.center toFarthest)
  expandByPoint s1 (vsub other.center toFarthest)

/-- The consecutive (x, y, z) triples of a flat coordinate list (the
`itemSize = 3` buffer-attribute view; `count = ⌊length/3⌋`). -/
def chunk3Q : List ℚ → List Vec3
  | x :: y :: z :: rest => ⟨x, y, z⟩ :: chunk3Q rest
  | _ => []

/-- Flatten (x, y, z) triples back into a flat coordinate list. -/
def flatVec3 : List Vec3 → List ℚ
  | [] => []
  | v :: rest => v.x :: v.y :: v.z :: flatVec3 rest

/-- `BufferGeometry.computeBoundingSphere` (three.js r133): center of the
axis-aligned bounding box, radius the maximal distance from that center to a
vertex (an empty position list gives the empty box's center `(0,0,0)` and
radius `√0 = 0`). -/
def computeBoundingSphereM (flat : List ℚ) : SphereM :=
  match chunk3Q flat with
  | [] => ⟨⟨0, 0, 0⟩, 0⟩
  | p :: rest =>
    let bmin := rest.foldl vmin p
    let bmax := rest.foldl vmax p
    let center := vscale (1 / 2) (vadd bmin bmax)
    let maxRadiusSq := (p :: rest).foldl (fun acc q => max acc (vdistSq center q)) 0
    ⟨center, ratSqrt maxRadiusSq⟩

/-- The geometry attributes of a `VimG3d` as the loader consumes them
(field names follow `g3d.ts`; `matrixArity` is the constant 16). -/
structure G3dM where
  positions : List ℚ
  indices : List Int
  meshSubmeshes : List Int
  submeshIndexOffsets : List Int
  submeshMaterial : List Int
  materialColors : List ℚ
  colorArity : Int
  instanceMeshes : List Int
  instanceTransforms : List ℚ
deriving DecidableEq

/-- Modelled from the spec: `VimG3d.getMeshSubmeshRange` lives in `g3d.ts`,
which is not among the sources under study (only its caller
`allocateGeometry` is). The spec describes `meshSubmeshes` as the
mesh→submesh range table: a mesh's range runs from its start offset to the
next mesh's start offset, or to the total submesh count for the last mesh. -/
def getMeshSubmeshRange (g : G3dM) (mesh : Int) : Int × Int :=
  let start := (jsIdx g.meshSubmeshes mesh).getD 0
  let stop := if mesh + 1 < (g.meshSubmeshes.length : Int)
    then (jsIdx g.meshSubmeshes (mesh + 1)).getD 0
    else (g.submeshIndexOffsets.length : Int)
  (start, stop)

/-- Modelled from the spec: `VimG3d.getSubmeshIndexRange` lives in `g3d.ts`.
The spec describes `submeshIndexOffsets` as the submesh→index range table: a
submesh's range runs from its start offset to the next submesh's start
offset, or to the index count for the last submesh. -/
def getSubmeshIndexRange (g : G3dM) (submesh : Int) : Int × Int :=
  let start := (jsIdx g.submeshIndexOffsets submesh).getD 0
  let stop := if submesh + 1 < (g.submeshIndexOffsets.length : Int)
    then (jsIdx g.submeshIndexOffsets (submesh + 1)).getD 0
    else (g.indices.length : Int)
  (start, stop)

/-- JavaScript `<` against a threshold where the left side may be
`undefined` (`undefined < t` is `false`). -/
def jsLtQ : Option ℚ → ℚ → Bool
  | none, _ => false
  | some v, t => v < t

/-- `this.defaultColor = new THREE.Color(0.5, 0.5, 0.5)`. -/
def defaultColor : ColorM := ⟨1 / 2, 1 / 2, 1 / 2⟩

/-- `new THREE.Color().fromArray(array, offset)` (out-of-range components —
excluded by G3D validation — read as 0 here in place of `undefined`). -/
def colorFromArray (arr : List ℚ) (i : Int) : ColorM :=
  ⟨(jsIdx arr i).getD 0, (jsIdx arr (i + 1)).getD 0, (jsIdx arr (i + 2)).getD 0⟩

/-- `VIMLoader.getSubmeshColor`: the sentinel material `-1` keeps the submesh
with the fixed neutral gray; a material with alpha `< 0.9` drops the submesh
(`undefined` — `none`); otherwise the material's RGB is used. -/
def getSubmeshColor (g : G3dM) (submesh : Int) : Option ColorM :=
  match jsIdx g.submeshMaterial submesh with
  | none =>
    -- out-of-range submesh id (excluded by G3D validation): `material < 0`
    -- is false for `undefined`, the NaN-indexed alpha read compares false
    -- with 0.9, and the NaN-indexed color components read as `undefined`
    some (colorFromArray g.materialColors (-1))
  | some material =>
    if material < 0 then some defaultColor
    else
      let colorIndex := material * g.colorArity
      let alpha := jsIdx g.materialColors (colorIndex + 3)
      if jsLtQ alpha (9 / 10) then none
      else some (colorFromArray g.materialColors colorIndex)

/-- The index values of one submesh's range, in order
(`g3d.indices[index]`; an out-of-range read — excluded by G3D validation —
stores `ToInt32(undefined) = 0`). -/
def submeshIndexValues (g : G3dM) (submesh : Int) : List Int :=
  let r := getSubmeshIndexRange g submesh
  (intRange r.1 r.2).map (fun idx => (jsIdx g.indices idx).getD 0)

/-- The inner double loop of `allocateGeometry` for one mesh: the
(vertex index, resolved color) pairs appended to the scratch index buffer, in
order, by the non-skipped submeshes. -/
def meshCollect (g : G3dM) (mesh : Int) : List (Int × ColorM) :=
  let r := getMeshSubmeshRange g mesh
  (intRange r.1 r.2).foldl (fun acc submesh =>
    match getSubmeshColor g submesh with
    | none => acc -- transparent submeshes are skipped
    | some c => acc ++ (submeshIndexValues g submesh).map (fun v => (v, c))) []

/-- `Number.MAX_SAFE_INTEGER`, the initial running `min`. -/
def maxSafeInteger : Int := 2 ^ 53 - 1

/-- The running minimum over the collected vertex indices
(initialized to `Number.MAX_SAFE_INTEGER`). -/
def collectedMin (l : List (Int × ColorM)) : Int :=
  l.foldl (fun m p => min m p.1) maxSafeInteger

/-- The running maximum over the collected vertex indices (initialized to 0). -/
def collectedMax (l : List (Int × ColorM)) : Int :=
  l.foldl (fun m p => max m p.1) 0

/-- `submeshColor.toArray(colorBuffer, vertex * 3)`: write r, g, b at offsets
`3v`, `3v+1`, `3v+2` of the shared color scratch buffer (a negative or
out-of-range typed-array write is silently dropped). -/
def writeColorAt (buf : List ℚ) (v : Int) (c : ColorM) : List ℚ :=
  if v < 0 then buf
  else ((buf.set (3 * v).toNat c.r).set (3 * v + 1).toNat c.g).set
    (3 * v + 2).toNat c.b

/-- All color writes of one mesh's collection pass, in order. -/
def writeColors (buf : List ℚ) (l : List (Int × ColorM)) : List ℚ :=
  l.foldl (fun b p => writeColorAt b p.1 p.2) buf

/-- One mesh slice as returned by `allocateGeometry` /
`createBufferGeometry`. The index attribute is a *copy*
(`new THREE.Uint32BufferAttribute(int32view)` allocates a fresh
`Uint32Array`, converting each value mod 2³²; the shared index scratch is
fully rewritten before each copy, so per-mesh values model it exactly). The
position and color attributes are *views* (`subarray`); the color view's
bounds into the shared color scratch are recorded together with a snapshot
of what the view held when the mesh was built. -/
structure MeshGeom where
  positions : List ℚ
  indexAttr : List Int
  colorStart : Nat
  colorEnd : Nat
  colorsAtCreation : List ℚ
  boundingSphere : SphereM
deriving DecidableEq

/-- The rebased, copied index buffer of one mesh: every collected index
shifted down by the running minimum, then stored as unsigned 32-bit. -/
def rebasedIndexAttr (g : G3dM) (mesh : Int) : List Int :=
  let collect := meshCollect g mesh
  let mn := collectedMin collect
  collect.map (fun p => (p.1 - mn).emod (2 ^ 32))

/-- The body of `allocateGeometry`'s mesh loop: run the collection pass
(its color writes mutate the shared scratch), and either record `null`
(every submesh transparent) or build the mesh slice. -/
def buildMeshGeom (g : G3dM) (mesh : Int) (scratch : List ℚ) :
    Option MeshGeom × List ℚ :=
  let collect := meshCollect g mesh
  let scratch' := writeColors scratch collect
  if collect.isEmpty then (none, scratch')
  else
    let mn := collectedMin collect
    let mx := collectedMax collect
    let sliceStart := mn * 3
    let sliceEnd := (mx + 1) * 3
    let pos := jsSubarray g.positions sliceStart sliceEnd
    (some ⟨pos, rebasedIndexAttr g mesh,
      jsClampIndex scratch'.length sliceStart,
      jsClampIndex scratch'.length sliceEnd,
      jsSubarray scratch' sliceStart sliceEnd,
      computeBoundingSphereM pos⟩, scratch')

/-- The result of `allocateGeometry`: the mesh-aligned slice array and the
final contents of the shared color scratch buffer (which the returned color
views alias). -/
structure AllocResult where
  meshes : List (Option MeshGeom)
  colorScratch : List ℚ
deriving DecidableEq

/-- The mesh loop of `allocateGeometry`, threading the shared color scratch
buffer through the meshes in order. -/
def allocGo (g : G3dM) : Nat → Nat → List ℚ → AllocResult
  | 0, _, scratch => ⟨[], scratch⟩
  | n + 1, mesh, scratch =>
    let step := buildMeshGeom g (mesh : Int) scratch
    let rest := allocGo g n (mesh + 1) step.2
    ⟨step.1 :: rest.meshes, rest.colorScratch⟩

/-- `VIMLoader.allocateGeometry`: one slice (or `null`) per mesh; the color
scratch buffer is allocated once, zero-filled, sized to the global position
array, and reused across meshes. -/
def allocateGeometry (g : G3dM) : AllocResult :=
  allocGo g g.meshSubmeshes.length 0 (List.replicate g.positions.length 0)

end VimSpec

namespace VimSpec

/-- `VIMLoader.countMeshReferences`: one pass over the instance→mesh array;
negative sentinels are skipped, other entries bump that mesh's counter
(an out-of-range mesh index increments `undefined`, a silent no-op). -/
def countMeshReferences (instanceMeshes : List Int) (meshCount : Nat) :
    List Int :=
  instanceMeshes.foldl (fun counts m =>
    if m < 0 then counts
    else counts.set m.toNat ((counts.getD m.toNat 0) + 1))
    (List.replicate meshCount 0)

/-- `VIMLoader.allocateMeshes`: per mesh id, `null` when the reference count
is ≤ 1 or the geometry slice is `null`; otherwise an instanced batch,
identified here by its mesh id (each `THREE.InstancedMesh` id is unique and
the batch wraps `geometries[i]`). -/
def allocateMeshes (geometries : List (Option MeshGeom))
    (meshRefCounts : List Int) : List (Option Nat) :=
  (List.range geometries.length).map (fun i =>
    let count := (meshRefCounts.get? i).getD 0
    if count ≤ 1 then none
    else match (geometries.get? i).getD none with
      | none => none
      | some _ => some i)

/-- The value `VIMLoader.applyMatrices` returns (`VimSceneGeometry`):
render batches in first-seen order, the accumulated bounding sphere, and the
two picking maps. -/
structure SceneGeometryM where
  meshes : List Nat
  boundingSphere : SphereM
  nodeIndexToMeshInstance : List (Nat × (Nat × Int))
  meshIdToNodeIndex : List (Nat × List Nat)
deriving DecidableEq

/-- The running state of `applyMatrices`' instance loop. -/
structure AMState where
  counters : List Int
  sphere : Option SphereM
  nodeMap : List (Nat × (Nat × Int))
  meshMap : List (Nat × List Nat)
  resultMeshes : List Nat
deriving DecidableEq

/-- Append `i` to the node list already registered for mesh id `mid`. -/
def meshMapPush (m : List (Nat × List Nat)) (mid : Nat) (i : Nat) :
    List (Nat × List Nat) :=
  m.map (fun p => if p.1 = mid then (p.1, p.2 ++ [i]) else p)

/-- One iteration of `applyMatrices`' loop for instance `i` with mesh index
`meshIndex`: skip sentinels and meshes without an instanced batch; otherwise
take the next slot from the per-mesh counter, record the picking-map entries
(registering the batch on first sight), and union the slice's bounding
sphere — transformed by the instance matrix — into the running sphere. -/
def amStep (meshes : List (Option Nat)) (geoms : List (Option MeshGeom))
    (instanceTransforms : List ℚ) (i : Nat) (meshIndex : Int)
    (st : AMState) : AMState :=
  if meshIndex < 0 then st
  else match (jsIdx meshes meshIndex).getD none with
  | none => st -- no instanced batch for this mesh (`if (!mesh) continue`)
  | some mid =>
    let count := (st.counters.get? meshIndex.toNat).getD 0
    let counters := st.counters.set meshIndex.toNat (count + 1)
    let matrix := jsSubarray instanceTransforms (16 * (i : Int))
      (16 * ((i : Int) + 1))
    -- mesh.setMatrixAt(count, matrix) feeds the GPU batch, not observed here
    let nodeMap := mapSet st.nodeMap i (mid, count)
    let seen := (mapGet st.meshMap mid).isSome
    let meshMap := if seen then meshMapPush st.meshMap mid i
      else mapSet st.meshMap mid [i]
    let resultMeshes := if seen then st.resultMeshes
      else st.resultMeshes ++ [mid]
    let geomSphere := match (jsIdx geoms (mid : Int)).getD none with
      | some mg => mg.boundingSphere
      | none => ⟨⟨0, 0, 0⟩, -1⟩ -- unreachable: an allocated batch has geometry
    let sphere := sphereApplyMatrix4 matrix geomSphere
    let acc := match st.sphere with
      | some b => sphereUnion b sphere
      | none => sphere
    ⟨counters, some acc, nodeMap, meshMap, resultMeshes⟩

/-- `applyMatrices`' instance loop over the instance→mesh array, with `i` the
absolute instance index. -/
def applyMatricesGo (meshes : List (Option Nat))
    (geoms : List (Option MeshGeom)) (instanceTransforms : List ℚ) :
    List Int → Nat → AMState → AMState
  | [], _, st => st
  | m :: rest, i, st =>
    applyMatricesGo meshes geoms instanceTransforms rest (i + 1)
      (amStep meshes geoms instanceTransforms i m st)

/-- `VIMLoader.applyMatrices` (the geometry slices are passed alongside the
batch array to resolve `mesh.geometry.boundingSphere`, which the source
reaches through the `InstancedMesh` object). A run with no live instance
falls back to `new THREE.Sphere()` (radius `-1`). -/
def applyMatricesM (meshes : List (Option Nat))
    (geoms : List (Option MeshGeom)) (instanceMeshes : List Int)
    (instanceTransforms : List ℚ) : SceneGeometryM :=
  let st := applyMatricesGo meshes geoms instanceTransforms instanceMeshes 0
    ⟨List.replicate meshes.length 0, none, [], [], []⟩
  ⟨st.resultMeshes, st.sphere.getD ⟨⟨0, 0, 0⟩, -1⟩, st.nodeMap, st.meshMap⟩

/-- The singleton-merging pass of `VIMLoader.parse`: for every instance whose
mesh has reference count exactly 1 (and a non-null slice), bake the instance
matrix into the slice's positions (`mesh.applyMatrix4(matrix)`) and queue the
geometry for merging; returns the queued position lists in order. -/
def parseSingles (g : G3dM) (geoms : List (Option MeshGeom))
    (meshRefCounts : List Int) : List Int → Nat → List (List ℚ)
  | [], _ => []
  | m :: rest, i =>
    let tail := parseSingles g geoms meshRefCounts rest (i + 1)
    if m < 0 then tail
    else match (jsIdx geoms m).getD none with
      | none => tail
      | some mg =>
        if (jsIdx meshRefCounts m).getD 0 = 1 then
          let matrix := jsSubarray g.instanceTransforms (16 * (i : Int))
            (16 * ((i : Int) + 1))
          flatVec3 ((chunk3Q mg.positions).map (vecApplyMatrix4 matrix)) :: tail
        else tail

/-- The geometry stages of `VIMLoader.parse` after the VIM data structure is
built: allocate the mesh slices, count references, allocate instanced
batches, place instances (`applyMatrices`), then merge all reference-count-1
geometry into one static batch — appended as a final render batch under a
fresh id — and *overwrite* the scene's bounding sphere with the merged
batch's own sphere. `mergeBufferGeometries` of an empty list crashes
(`TypeError` on `geometries[0]`), modelled as an error. -/
def parsePipeline (g : G3dM) : Except JsErr SceneGeometryM :=
  let alloc := allocateGeometry g
  let meshRefCounts := countMeshReferences g.instanceMeshes alloc.meshes.length
  let rawMeshes := allocateMeshes alloc.meshes meshRefCounts
  let scene := applyMatricesM rawMeshes alloc.meshes g.instanceMeshes
    g.instanceTransforms
  let singles := parseSingles g alloc.meshes meshRefCounts g.instanceMeshes 0
  if singles.isEmpty then throw .mergeEmpty
  else
    let bigPositions := singles.flatten
    let bigSphere := computeBoundingSphereM bigPositions
    return { scene with
      meshes := scene.meshes ++ [alloc.meshes.length],
      boundingSphere := bigSphere }

/-- Modelled from the spec (the reference value of claim C1): walk the
instances in order; for every live instance — non-negative mesh index, mesh
slice non-null — transform the slice's precomputed bounding sphere by the
instance's matrix and union it into the running global bounding volume. -/
def specUnionGo (geoms : List (Option MeshGeom)) (instanceTransforms : List ℚ) :
    List Int → Nat → Option SphereM → Option SphereM
  | [], _, acc => acc
  | m :: rest, i, acc =>
    let acc' := if m < 0 then acc
      else match (jsIdx geoms m).getD none with
      | none => acc
      | some mg =>
        let s := sphereApplyMatrix4
          (jsSubarray instanceTransforms (16 * (i : Int)) (16 * ((i : Int) + 1)))
          mg.boundingSphere
        some (match acc with
          | none => s
          | some b => sphereUnion b s)
    specUnionGo geoms instanceTransforms rest (i + 1) acc'

/-- Modelled from the spec: the union of every live instance's transformed
bounding sphere, covering instanced and merged-static instances alike. -/
def specUnionAllInstanceSpheres (g : G3dM) : Option SphereM :=
  specUnionGo (allocateGeometry g).meshes g.instanceTransforms
    g.instanceMeshes 0 none

end VimSpec

namespace VimSpec

/-- The slice `[a, b)` of a list (contents of a typed-array view with the
bounds already clamped). -/
def sliceN (l : List α) (a b : Nat) : List α := (l.drop a).take (b - a)

/-- The batch an instance with mesh index `m` is placed into, if any:
`meshes[m]` unless the index is a negative sentinel, out of range, or holds
`null`. -/
def liveBatch (meshes : List (Option Nat)) (m : Int) : Option Nat :=
  if m < 0 then none else (jsIdx meshes m).getD none

/-- The number of instances before `i` carrying the same mesh index as
instance `i` (what the per-mesh slot counter has reached when instance `i`
is placed). -/
def earlierSameMeshCount (instanceMeshes : List Int) (i : Nat) : Nat :=
  ((instanceMeshes.take i).filter
    (fun x => x = instanceMeshes.getD i 0)).length

/-- Identity matrix, column-major (`new THREE.Matrix4()`). -/
def idMat : List ℚ := [1, 0, 0, 0, 0, 1, 0, 0, 0, 0, 1, 0, 0, 0, 0, 1]

/-- Translation by `t` along the x axis, column-major. -/
def transX (t : ℚ) : List ℚ := [1, 0, 0, 0, 0, 1, 0, 0, 0, 0, 1, 0, t, 0, 0, 1]

/-- Concrete geometry: two meshes of one gray submesh each (mesh 0 on
vertices 0–1, mesh 1 on vertices 2–3, both spanning x ∈ [0, 2]); mesh 0 is
instanced twice (translated by ±100 in x), mesh 1 once (identity). -/
def exG3d : G3dM where
  positions := [0, 0, 0, 2, 0, 0, 0, 0, 0, 2, 0, 0]
  indices := [0, 1, 0, 2, 3, 2]
  meshSubmeshes := [0, 1]
  submeshIndexOffsets := [0, 3]
  submeshMaterial := [-1, -1]
  materialColors := []
  colorArity := 4
  instanceMeshes := [0, 0, 1]
  instanceTransforms := transX 100 ++ transX (-100) ++ idMat

/-- Concrete geometry for the aliasing claim: mesh 0 (submesh 0, sentinel
material → gray) covers vertices 0–1; mesh 1 (submesh 1, opaque red
material) covers vertex 1 only, so the two meshes' vertex ranges overlap at
vertex 1. -/
def exC4 : G3dM where
  positions := [0, 0, 0, 2, 0, 0]
  indices := [0, 1, 0, 1, 1, 1]
  meshSubmeshes := [0, 1]
  submeshIndexOffsets := [0, 3]
  submeshMaterial := [-1, 0]
  materialColors := [1, 0, 0, 1]
  colorArity := 4
  instanceMeshes := []
  instanceTransforms := []

/-- Concrete geometry for the transparency scenario: one mesh with two
submeshes over the same triangle — submesh 0 opaque red (alpha 1), submesh 1
with alpha 0.2. -/
def exC8 : G3dM where
  positions := [0, 0, 0, 1, 0, 0, 0, 1, 0]
  indices := [0, 1, 2, 0, 1, 2]
  meshSubmeshes := [0]
  submeshIndexOffsets := [0, 3]
  submeshMaterial := [0, 1]
  materialColors := [1, 0, 0, 1, 0, 0, 1, 1 / 5]
  colorArity := 4
  instanceMeshes := []
  instanceTransforms := []

/-- A concrete well-formed BFAST byte buffer: magic `0xBFA5`, `numArrays = 2`,
`dataStart = 64`, `dataEnd = 68`; array 0 is the name list `"a\0"` at
`[64, 66)`, array 1 the payload `[7, 9]` at `[66, 68)`. -/
def exBFastBytes : List Nat :=
  [165, 191, 0, 0, 0, 0, 0, 0, 64, 0, 0, 0, 0, 0, 0, 0,
   68, 0, 0, 0, 0, 0, 0, 0, 2, 0, 0, 0, 0, 0, 0, 0,
   64, 0, 0, 0, 0, 0, 0, 0, 66, 0, 0, 0, 0, 0, 0, 0,
   66, 0, 0, 0, 0, 0, 0, 0, 68, 0, 0, 0, 0, 0, 0, 0,
   97, 0, 7, 9]

/-- A concrete BFAST byte buffer whose header declares `numArrays = 0`
(`dataStart = dataEnd = byteLength = 32`). -/
def exZeroArrays : List Nat :=
  [165, 191, 0, 0, 0, 0, 0, 0, 32, 0, 0, 0, 0, 0, 0, 0,
   32, 0, 0, 0, 0, 0, 0, 0, 0, 0, 0, 0, 0, 0, 0, 0]

/-- A placeholder container header for directly constructed `BFast` values. -/
def exHeader : BFastHeader := ⟨0, 32, 32, 1⟩

/-- Concrete entity-table input for claim C6: a single column named
`"properties:Foo"`. -/
def exC6 : BFast where
  header := exHeader
  names := [strUnits "properties:Foo"]
  buffers := [[1, 2, 3, 4]]

/-- Concrete `vim.bim` with all tables and columns of the 3-hop name lookup
present; the `Name` column is empty, so the string-index hop misses. -/
def exBim : BimV :=
  [(strUnits "Vim.Node", [(strUnits "Rvt.Element", [5])]),
   (strUnits "Rvt.Element", [(strUnits "Name", [])])]

end VimSpec

namespace VimSpec

/-- The node-map entries `applyMatrices` appends while scanning the suffix
`l` of the instance array from absolute index `k` onward, given the per-mesh
slot counters accumulated so far (proof-side re-expression of the loop's
map-building, used to characterize `applyMatricesM`). -/
def nodeEntriesFrom (meshes : List (Option Nat)) :
    List Int → Nat → List Int → List (Nat × (Nat × Int))
  | [], _, _ => []
  | m :: rest, k, counters =>
    match liveBatch meshes m with
    | none => nodeEntriesFrom meshes rest (k + 1) counters
    | some mid =>
      let c := (counters.get? m.toNat).getD 0
      (k, (mid, c)) :: nodeEntriesFrom meshes rest (k + 1)
        (counters.set m.toNat (c + 1))

end VimSpec

namespace VimSpec

/-- The (vertex, color) pairs one submesh contributes to its mesh's
collection pass: none when the submesh is filtered as transparent, its index
slice paired with the resolved color otherwise. -/
def keptPairs (g : G3dM) (submesh : Int) : List (Int × ColorM) :=
  match getSubmeshColor g submesh with
  | none => []
  | some c => (submeshIndexValues g submesh).map (fun v => (v, c))

end VimSpec

deriving instance DecidableEq for Except

namespace VimSpec

/-- The mesh slice the builder produces for mesh 0 of `exG3d` (used to
instantiate the general theorems at a concrete input). -/
def exMesh0 : MeshGeom where
  positions := [0, 0, 0, 2, 0, 0]
  indexAttr := [0, 1, 0]
  colorStart := 0
  colorEnd := 6
  colorsAtCreation := [1 / 2, 1 / 2, 1 / 2, 1 / 2, 1 / 2, 1 / 2]
  boundingSphere := ⟨⟨1, 0, 0⟩, 1⟩

end VimSpec

namespace VimSpec

/-- The descriptor loop returns one buffer per declared array. -/
theorem parseBuffers_length (data : List Int) (bytes : List Nat) (off : Nat)
    (hdr : BFastHeader) :
    ∀ n pos bufs, parseBuffers data bytes off hdr n pos = .ok bufs →
      bufs.length = n := by
  intro n
  induction n with
  | zero =>
    intro pos bufs h
    simp only [parseBuffers, Except.ok.injEq] at h
    simp [← h]
  | succ k ih =>
    intro pos bufs h
    simp only [parseBuffers] at h
    split at h
    · exact absurd h (by simp)
    split at h
    · exact absurd h (by simp)
    split at h
    · exact absurd h (by simp)
    split at h
    · exact absurd h (by simp)
    split at h
    · exact absurd h (by simp)
    revert h
    cases hrec : parseBuffers data bytes off hdr k (pos + 4) with
    | error e => intro h; exact absurd h (by simp)
    | ok rest =>
      intro h
      simp only [Except.ok.injEq] at h
      subst h
      simp [ih _ _ hrec]

/-- Count bookkeeping of a successful container parse: the returned name
list is as long as the returned buffer list, and the declared array count
exceeds it by one. -/
theorem parseBFast_counts (bytes : List Nat) (byteOffset byteLength : Nat)
    (bf : BFast) (h : parseBFast bytes byteOffset byteLength = .ok bf) :
    bf.names.length = bf.buffers.length
    ∧ bf.header.numArrays = (bf.buffers.length : Int) + 1 := by
  simp only [parseBFast] at h
  split at h
  · exact absurd h (by simp)
  split at h
  · exact absurd h (by simp)
  cases hh : BFastHeader.fromArray
      (int32Words ((bytes.drop byteOffset).take (4 * (byteLength / 4))))
      byteLength with
  | error e => rw [hh] at h; exact absurd h (by simp)
  | ok header =>
    rw [hh] at h
    simp only [] at h
    cases hb : parseBuffers
        (int32Words ((bytes.drop byteOffset).take (4 * (byteLength / 4))))
        bytes byteOffset header header.numArrays.toNat 8 with
    | error e => rw [hb] at h; exact absurd h (by simp)
    | ok buffers =>
      rw [hb] at h
      simp only [] at h
      split at h
      · exact absurd h (by simp)
      split at h
      · exact absurd h (by simp)
      · rename_i hguard hnames
        simp only [Except.ok.injEq] at h
        have hlen := parseBuffers_length _ _ _ _ _ _ _ hb
        subst h
        simp only [not_not] at hnames
        simp only [List.length_drop]
        omega

/-- `BFastHeader.fromArray` never reports the missing-names-buffer error. -/
theorem fromArray_ne_atLeastOne (data : List Int) (byteLength : Int) :
    BFastHeader.fromArray data byteLength ≠ .error .atLeastOneBuffer := by
  simp only [BFastHeader.fromArray]
  split
  · simp
  split
  · simp
  split
  · simp
  split
  · simp
  split
  · simp
  split
  · simp
  split
  · simp
  split
  · simp
  · simp

/-- The descriptor loop never reports the missing-names-buffer error. -/
theorem parseBuffers_ne_atLeastOne (data : List Int) (bytes : List Nat)
    (off : Nat) (hdr : BFastHeader) :
    ∀ n pos, parseBuffers data bytes off hdr n pos ≠ .error .atLeastOneBuffer := by
  intro n
  induction n with
  | zero => intro pos; simp [parseBuffers]
  | succ k ih =>
    intro pos
    simp only [parseBuffers]
    split
    · simp
    split
    · simp
    split
    · simp
    split
    · simp
    split
    · simp
    cases hrec : parseBuffers data bytes off hdr k (pos + 4) with
    | error e =>
      intro hcontra
      simp only [Except.error.injEq] at hcontra
      exact ih (pos + 4) (by rw [hrec, hcontra])
    | ok rest => simp

end VimSpec

namespace VimSpec

/-- `parseBFast` can never fail with the dedicated missing-names-buffer
error: its guard `buffers.length < 0` is unsatisfiable. -/
theorem parseBFast_ne_atLeastOne (bytes : List Nat) (off len : Nat) :
    parseBFast bytes off len ≠ .error .atLeastOneBuffer := by
  simp only [parseBFast]
  split
  · simp
  split
  · simp
  cases hh : BFastHeader.fromArray
      (int32Words ((bytes.drop off).take (4 * (len / 4)))) len with
  | error e =>
    intro hcontra
    simp only [Except.error.injEq] at hcontra
    exact fromArray_ne_atLeastOne _ _ (by rw [hh, hcontra])
  | ok header =>
    simp only []
    cases hb : parseBuffers
        (int32Words ((bytes.drop off).take (4 * (len / 4))))
        bytes off header header.numArrays.toNat 8 with
    | error e =>
      intro hcontra
      simp only [Except.error.injEq] at hcontra
      exact parseBuffers_ne_atLeastOne _ _ _ _ _ _ (by rw [hb, hcontra])
    | ok buffers =>
      simp only []
      split
      · rename_i hneg
        exact absurd hneg (by simp)
      split
      · simp
      · simp

/-- A container whose header declares zero arrays fails the name-count check
(0 names against −1 expected). -/
theorem parseBFast_zero_arrays (bytes : List Nat) (off len : Nat)
    (hdr : BFastHeader)
    (hoff : off % 4 = 0)
    (hlen : ¬bytes.length < off + 4 * (len / 4))
    (hfa : BFastHeader.fromArray
      (int32Words ((bytes.drop off).take (4 * (len / 4)))) len = .ok hdr)
    (hzero : hdr.numArrays = 0) :
    parseBFast bytes off len = .error .nameCountMismatch := by
  simp only [parseBFast]
  rw [if_neg (by simp [hoff]), if_neg hlen, hfa]
  simp only [hzero]
  simp [parseBuffers, bfastNameSplit, utf8Decode, utf8DecodeGo, splitOnUnit]

end VimSpec

namespace VimSpec

/-- `Map.set` with a fresh key appends the binding at the end. -/
theorem mapSet_fresh [DecidableEq κ] (l : List (κ × ν)) (k : κ) (v : ν)
    (h : ∀ p ∈ l, p.1 ≠ k) : mapSet l k v = l ++ [(k, v)] := by
  induction l with
  | nil => rfl
  | cons p rest ih =>
    simp only [mapSet]
    rw [if_neg (h p (by simp))]
    simp only [List.cons_append, List.cons.injEq, true_and]
    exact ih (fun q hq => h q (by simp [hq]))

/-- Keys already in the map are left alone by `mapGet` over an append when
absent from the prefix. -/
theorem mapGet_append_of_not_mem [DecidableEq κ] (a b : List (κ × ν)) (k : κ)
    (h : ∀ p ∈ a, p.1 ≠ k) : mapGet (a ++ b) k = mapGet b k := by
  induction a with
  | nil => rfl
  | cons p rest ih =>
    simp only [List.cons_append, mapGet]
    rw [if_neg (h p (by simp))]
    exact ih (fun q hq => h q (by simp [hq]))

/-- The instance loop of `applyMatrices` appends exactly the entries of
`nodeEntriesFrom` to the node map, provided all existing keys precede the
scan position. -/
theorem applyMatricesGo_nodeMap (meshes : List (Option Nat))
    (geoms : List (Option MeshGeom)) (T : List ℚ) :
    ∀ (l : List Int) (k : Nat) (st : AMState),
      (∀ p ∈ st.nodeMap, p.1 < k) →
      (applyMatricesGo meshes geoms T l k st).nodeMap
        = st.nodeMap ++ nodeEntriesFrom meshes l k st.counters := by
  intro l
  induction l with
  | nil => intro k st h; simp [applyMatricesGo, nodeEntriesFrom]
  | cons m rest ih =>
    intro k st h
    simp only [applyMatricesGo, nodeEntriesFrom]
    by_cases hm : m < 0
    · rw [show amStep meshes geoms T k m st = st by
        simp [amStep, hm]]
      rw [show liveBatch meshes m = none by simp [liveBatch, hm]]
      exact ih (k + 1) st (fun p hp => Nat.lt_succ_of_lt (h p hp))
    · cases hj : (jsIdx meshes m).getD none with
      | none =>
        rw [show amStep meshes geoms T k m st = st by
          simp [amStep, hm, hj]]
        rw [show liveBatch meshes m = none by simp [liveBatch, hm, hj]]
        exact ih (k + 1) st (fun p hp => Nat.lt_succ_of_lt (h p hp))
      | some mid =>
        rw [show liveBatch meshes m = some mid by simp [liveBatch, hm, hj]]
        have hstep : amStep meshes geoms T k m st =
            ⟨st.counters.set m.toNat (((st.counters.get? m.toNat).getD 0) + 1),
             some (match st.sphere with
               | some b => sphereUnion b (sphereApplyMatrix4
                   (jsSubarray T (16 * (k : Int)) (16 * ((k : Int) + 1)))
                   (match (jsIdx geoms (mid : Int)).getD none with
                     | some mg => mg.boundingSphere
                     | none => ⟨⟨0, 0, 0⟩, -1⟩))
               | none => sphereApplyMatrix4
                   (jsSubarray T (16 * (k : Int)) (16 * ((k : Int) + 1)))
                   (match (jsIdx geoms (mid : Int)).getD none with
                     | some mg => mg.boundingSphere
                     | none => ⟨⟨0, 0, 0⟩, -1⟩)),
             mapSet st.nodeMap k (mid, (st.counters.get? m.toNat).getD 0),
             if (mapGet st.meshMap mid).isSome then meshMapPush st.meshMap mid k
               else mapSet st.meshMap mid [k],
             if (mapGet st.meshMap mid).isSome then st.resultMeshes
               else st.resultMeshes ++ [mid]⟩ := by
          simp only [amStep, hm, if_neg hm, hj]
          rfl
        rw [hstep]
        rw [ih (k + 1) _ (by
          intro p hp
          simp only [] at hp
          rw [mapSet_fresh st.nodeMap k _ (fun q hq => Nat.ne_of_lt (h q hq))] at hp
          rcases List.mem_append.mp hp with hq | hq
          · exact Nat.lt_succ_of_lt (h p hq)
          · simp only [List.mem_singleton] at hq
            subst hq
            exact Nat.lt_succ_self k)]
        simp only []
        rw [mapSet_fresh st.nodeMap k _ (fun q hq => Nat.ne_of_lt (h q hq))]
        simp

end VimSpec

namespace VimSpec

/-- Every entry produced from scan position `k` has key at least `k`. -/
theorem nodeEntriesFrom_key_ge (meshes : List (Option Nat)) :
    ∀ (l : List Int) (k : Nat) (cnt : List Int) p,
      p ∈ nodeEntriesFrom meshes l k cnt → k ≤ p.1 := by
  intro l
  induction l with
  | nil => intro k cnt p hp; simp [nodeEntriesFrom] at hp
  | cons m rest ih =>
    intro k cnt p hp
    simp only [nodeEntriesFrom] at hp
    cases hl : liveBatch meshes m with
    | none =>
      rw [hl] at hp
      exact Nat.le_of_succ_le (ih (k + 1) cnt p hp)
    | some mid =>
      rw [hl] at hp
      simp only [List.mem_cons] at hp
      rcases hp with hp | hp
      · subst hp; exact Nat.le_refl k
      · exact Nat.le_of_succ_le (ih (k + 1) _ p hp)

/-- Keys below the scan position are absent. -/
theorem mapGet_nodeEntriesFrom_lt (meshes : List (Option Nat))
    (l : List Int) (k : Nat) (cnt : List Int) (i : Nat) (h : i < k) :
    mapGet (nodeEntriesFrom meshes l k cnt) i = none := by
  induction l generalizing k cnt with
  | nil => simp [nodeEntriesFrom, mapGet]
  | cons m rest ih =>
    simp only [nodeEntriesFrom]
    cases liveBatch meshes m with
    | none => exact ih (k + 1) cnt (Nat.lt_succ_of_lt h)
    | some mid =>
      simp only [mapGet]
      rw [if_neg (by omega)]
      exact ih (k + 1) _ (Nat.lt_succ_of_lt h)

theorem earlierSameMeshCount_cons (m : Int) (rest : List Int) (i : Nat) :
    earlierSameMeshCount (m :: rest) (i + 1)
      = (if m = rest.getD i 0 then 1 else 0) + earlierSameMeshCount rest i := by
  simp only [earlierSameMeshCount, List.take_cons, List.getD_cons_succ,
    List.filter_cons, List.getD]
  by_cases h : m = rest[i]?.getD 0
  · simp [h]; omega
  · simp [h]

/-- A live mesh index points into the batch array. -/
theorem liveBatch_lt (meshes : List (Option Nat)) (m : Int) (mid : Nat)
    (h : liveBatch meshes m = some mid) : m.toNat < meshes.length ∧ 0 ≤ m := by
  simp only [liveBatch] at h
  split at h
  · simp at h
  · rename_i hm
    constructor
    · by_contra hlen
      rw [show jsIdx meshes m = none by
        simp only [jsIdx]; rw [dif_neg]; intro hc; exact hlen hc.2] at h
      simp at h
    · omega

/-- Slot bookkeeping of the appended entries: the entry for absolute
instance `k + i` carries the batch of its mesh index and the slot
`counters[mesh] + (earlier same-mesh instances within the scanned suffix)`. -/
theorem mapGet_nodeEntriesFrom (meshes : List (Option Nat)) :
    ∀ (l : List Int) (k : Nat) (cnt : List Int) (i : Nat),
      meshes.length ≤ cnt.length →
      mapGet (nodeEntriesFrom meshes l k cnt) (k + i)
        = match l.get? i with
          | none => none
          | some m => (liveBatch meshes m).map
              (fun mid => (mid,
                (cnt.get? m.toNat).getD 0 + (earlierSameMeshCount l i : Int))) := by
  intro l
  induction l with
  | nil => intro k cnt i hlen; simp [nodeEntriesFrom, mapGet]
  | cons m rest ih =>
    intro k cnt i hlen
    cases i with
    | zero =>
      simp only [Nat.add_zero, nodeEntriesFrom, List.get?_cons_zero]
      cases hl : liveBatch meshes m with
      | none => simp [mapGet_nodeEntriesFrom_lt _ _ _ _ _ (Nat.lt_succ_self k)]
      | some mid =>
        simp only [mapGet, if_pos rfl, Option.map_some]
        simp [earlierSameMeshCount]
    | succ i =>
      simp only [nodeEntriesFrom, List.get?_cons_succ]
      cases hl : liveBatch meshes m with
      | none =>
        have : k + (i + 1) = (k + 1) + i := by omega
        rw [this, ih (k + 1) cnt i hlen]
        cases hg : rest.get? i with
        | none => rfl
        | some m' =>
          simp only []
          cases hl' : liveBatch meshes m' with
          | none => rfl
          | some mid' =>
            simp only [Option.map_some']
            have hne : ¬ m = rest.getD i 0 := by
              intro hc
              rw [show rest.getD i 0 = m' by
                simp [List.getD, ← List.get?_eq_getElem?, hg]] at hc
              rw [hc, hl'] at hl
              exact Option.noConfusion hl
            rw [earlierSameMeshCount_cons, if_neg hne]
            simp
      | some mid =>
        simp only [mapGet]
        rw [if_neg (by omega)]
        have : k + (i + 1) = (k + 1) + i := by omega
        rw [this, ih (k + 1) _ i (by simp [hlen])]
        cases hg : rest.get? i with
        | none => rfl
        | some m' =>
          simp only []
          cases hl' : liveBatch meshes m' with
          | none => rfl
          | some mid' =>
            simp only [Option.map_some', Option.some.injEq]
            have hmlt := liveBatch_lt meshes m mid hl
            have hmlt' := liveBatch_lt meshes m' mid' hl'
            have hrestD : rest.getD i 0 = m' := by
              simp [List.getD, ← List.get?_eq_getElem?, hg]
            by_cases hmm : m.toNat = m'.toNat
            · have hm_eq : m = m' := by omega
              have hset : ((cnt.set m.toNat
                  (((cnt.get? m.toNat).getD 0) + 1)).get? m'.toNat).getD 0
                  = ((cnt.get? m.toNat).getD 0) + 1 := by
                rw [← hmm, List.get?_eq_getElem?,
                  List.getElem?_set_eq_of_lt _ (by omega)]
                simp
              rw [hset, earlierSameMeshCount_cons, if_pos (by rw [hrestD, hm_eq]),
                hm_eq]
              congr 1
              push_cast
              ring
            · have hset : ((cnt.set m.toNat
                  (((cnt.get? m.toNat).getD 0) + 1)).get? m'.toNat).getD 0
                  = (cnt.get? m'.toNat).getD 0 := by
                rw [List.get?_eq_getElem?, List.getElem?_set_ne hmm,
                  ← List.get?_eq_getElem?]
              rw [hset, earlierSameMeshCount_cons,
                if_neg (by rw [hrestD]; omega)]
              simp

end VimSpec

namespace VimSpec

theorem replicate_get?_getD (n j : Nat) :
    (((List.replicate n (0 : Int)).get? j).getD 0) = 0 := by
  rw [List.get?_eq_getElem?, List.getElem?_replicate]
  split <;> simp

/-- The full characterization of the node-index map built by
`applyMatrices`. -/
theorem applyMatricesM_nodeMap (meshes : List (Option Nat))
    (geoms : List (Option MeshGeom)) (instanceMeshes : List Int)
    (transforms : List ℚ) (i : Nat) :
    mapGet (applyMatricesM meshes geoms instanceMeshes
        transforms).nodeIndexToMeshInstance i
      = match instanceMeshes.get? i with
        | none => none
        | some m => (liveBatch meshes m).map
            (fun mid => (mid, (earlierSameMeshCount instanceMeshes i : Int))) := by
  simp only [applyMatricesM]
  rw [applyMatricesGo_nodeMap meshes geoms transforms instanceMeshes 0 _
    (by intro p hp; simp at hp)]
  simp only [List.nil_append]
  have hmain := mapGet_nodeEntriesFrom meshes instanceMeshes 0
    (List.replicate meshes.length 0) i (by simp)
  rw [Nat.zero_add] at hmain
  rw [hmain]
  cases instanceMeshes.get? i with
  | none => rfl
  | some m => simp [replicate_get?_getD]

end VimSpec

namespace VimSpec

/-- A slice with collapsed bounds is empty. -/
theorem sliceN_of_le (l : List α) (a b : Nat) (h : b ≤ a) : sliceN l a b = [] := by
  simp [sliceN, Nat.sub_eq_zero_of_le h]

/-- Setting a position outside `[a, b)` leaves the slice `[a, b)` unchanged. -/
theorem sliceN_set_outside (l : List α) (j : Nat) (x : α) (a b : Nat)
    (h : j < a ∨ b ≤ j ∨ l.length ≤ j) :
    sliceN (l.set j x) a b = sliceN l a b := by
  rcases h with h | h | h
  case inr.inr => rw [List.set_eq_of_length_le h]
  all_goals
    apply List.ext_getElem?
    intro n
    simp only [sliceN, List.getElem?_take, List.getElem?_drop]
    split
    · rename_i hn
      rw [List.getElem?_set_ne (by omega)]
    · rfl

/-- The color writes of one vertex stay inside that vertex's three slots. -/
theorem sliceN_writeColorAt (buf : List ℚ) (v : Int) (c : ColorM) (a b : Nat)
    (h : 0 ≤ v → 3 * v + 2 < (a : Int) ∨ (b : Int) ≤ 3 * v
      ∨ (buf.length : Int) ≤ 3 * v) :
    sliceN (writeColorAt buf v c) a b = sliceN buf a b := by
  by_cases hv : v < 0
  · simp [writeColorAt, hv]
  · have hv' : 0 ≤ v := by omega
    rcases h hv' with h3 | h3 | h3
    · simp only [writeColorAt, if_neg hv]
      rw [sliceN_set_outside _ _ _ _ _ (Or.inl (by omega)),
        sliceN_set_outside _ _ _ _ _ (Or.inl (by omega)),
        sliceN_set_outside _ _ _ _ _ (Or.inl (by omega))]
    · simp only [writeColorAt, if_neg hv]
      rw [sliceN_set_outside _ _ _ _ _ (Or.inr (Or.inl (by omega))),
        sliceN_set_outside _ _ _ _ _ (Or.inr (Or.inl (by omega))),
        sliceN_set_outside _ _ _ _ _ (Or.inr (Or.inl (by omega)))]
    · simp only [writeColorAt, if_neg hv]
      rw [sliceN_set_outside _ _ _ _ _ (Or.inr (Or.inr (by
          simp [List.length_set]; omega))),
        sliceN_set_outside _ _ _ _ _ (Or.inr (Or.inr (by
          simp [List.length_set]; omega))),
        sliceN_set_outside _ _ _ _ _ (Or.inr (Or.inr (by omega)))]

theorem writeColorAt_length (buf : List ℚ) (v : Int) (c : ColorM) :
    (writeColorAt buf v c).length = buf.length := by
  by_cases hv : v < 0 <;> simp [writeColorAt, hv]

theorem writeColors_length (l : List (Int × ColorM)) (buf : List ℚ) :
    (writeColors buf l).length = buf.length := by
  induction l generalizing buf with
  | nil => rfl
  | cons p rest ih => simp [writeColors, List.foldl_cons] at ih ⊢
                      rw [ih, writeColorAt_length]

/-- If every written vertex avoids `[a, b)` (or the buffer), the whole write
pass leaves the slice unchanged. -/
theorem sliceN_writeColors (l : List (Int × ColorM)) (buf : List ℚ) (a b : Nat)
    (h : ∀ p ∈ l, 0 ≤ p.1 → 3 * p.1 + 2 < (a : Int) ∨ (b : Int) ≤ 3 * p.1
      ∨ (buf.length : Int) ≤ 3 * p.1) :
    sliceN (writeColors buf l) a b = sliceN buf a b := by
  induction l generalizing buf with
  | nil => rfl
  | cons p rest ih =>
    simp only [writeColors, List.foldl_cons]
    rw [show (List.foldl (fun b p => writeColorAt b p.1 p.2) (writeColorAt buf p.1 p.2) rest)
        = writeColors (writeColorAt buf p.1 p.2) rest from rfl]
    rw [ih _ (by
      intro q hq hq0
      rw [writeColorAt_length]
      exact h q (by simp [hq]) hq0)]
    exact sliceN_writeColorAt _ _ _ _ _ (h p (by simp) )

end VimSpec

namespace VimSpec

theorem foldlMin_le_init (l : List (Int × ColorM)) :
    ∀ init, l.foldl (fun m q => min m q.1) init ≤ init := by
  induction l with
  | nil => intro init; simp
  | cons q t ih =>
    intro init
    simp only [List.foldl_cons]
    exact le_trans (ih (min init q.1)) (min_le_left _ _)

theorem foldlMin_le_mem (l : List (Int × ColorM)) :
    ∀ init p, p ∈ l → l.foldl (fun m q => min m q.1) init ≤ p.1 := by
  induction l with
  | nil => intro init p hp; simp at hp
  | cons q t ih =>
    intro init p hp
    simp only [List.foldl_cons]
    rcases List.mem_cons.mp hp with hp | hp
    · subst hp
      exact le_trans (foldlMin_le_init t _) (min_le_right _ _)
    · exact ih _ p hp

theorem foldlMin_cases (l : List (Int × ColorM)) :
    ∀ init, l.foldl (fun m q => min m q.1) init = init
      ∨ ∃ p ∈ l, l.foldl (fun m q => min m q.1) init = p.1 := by
  induction l with
  | nil => intro init; left; rfl
  | cons q t ih =>
    intro init
    simp only [List.foldl_cons]
    rcases ih (min init q.1) with h | ⟨p, hp, h⟩
    · rcases min_choice init q.1 with hm | hm
      · left; rw [h, hm]
      · right; exact ⟨q, by simp, by rw [h, hm]⟩
    · right; exact ⟨p, by simp [hp], h⟩

theorem foldlMax_ge_init (l : List (Int × ColorM)) :
    ∀ init, init ≤ l.foldl (fun m q => max m q.1) init := by
  induction l with
  | nil => intro init; simp
  | cons q t ih =>
    intro init
    simp only [List.foldl_cons]
    exact le_trans (le_max_left _ _) (ih (max init q.1))

theorem foldlMax_ge_mem (l : List (Int × ColorM)) :
    ∀ init p, p ∈ l → p.1 ≤ l.foldl (fun m q => max m q.1) init := by
  induction l with
  | nil => intro init p hp; simp at hp
  | cons q t ih =>
    intro init p hp
    simp only [List.foldl_cons]
    rcases List.mem_cons.mp hp with hp | hp
    · subst hp
      exact le_trans (le_max_right _ _) (foldlMax_ge_init t _)
    · exact ih _ p hp

theorem foldlMax_cases (l : List (Int × ColorM)) :
    ∀ init, l.foldl (fun m q => max m q.1) init = init
      ∨ ∃ p ∈ l, l.foldl (fun m q => max m q.1) init = p.1 := by
  induction l with
  | nil => intro init; left; rfl
  | cons q t ih =>
    intro init
    simp only [List.foldl_cons]
    rcases ih (max init q.1) with h | ⟨p, hp, h⟩
    · rcases max_choice init q.1 with hm | hm
      · left; rw [h, hm]
      · right; exact ⟨q, by simp, by rw [h, hm]⟩
    · right; exact ⟨p, by simp [hp], h⟩

theorem collectedMin_le {l : List (Int × ColorM)} {p : Int × ColorM}
    (hp : p ∈ l) : collectedMin l ≤ p.1 :=
  foldlMin_le_mem l _ p hp

theorem collectedMax_ge {l : List (Int × ColorM)} {p : Int × ColorM}
    (hp : p ∈ l) : p.1 ≤ collectedMax l :=
  foldlMax_ge_mem l _ p hp

theorem collectedMin_attained {l : List (Int × ColorM)}
    (hlt : ∀ p ∈ l, p.1 < maxSafeInteger) (hne : l ≠ []) :
    ∃ p ∈ l, p.1 = collectedMin l := by
  rcases foldlMin_cases l maxSafeInteger with h | ⟨p, hp, h⟩
  · obtain ⟨p0, hp0⟩ : ∃ p0, p0 ∈ l := List.exists_mem_of_ne_nil l hne
    have h1 := collectedMin_le hp0
    have h2 := hlt p0 hp0
    rw [show collectedMin l = maxSafeInteger from h] at h1
    omega
  · exact ⟨p, hp, h.symm⟩

theorem collectedMax_attained {l : List (Int × ColorM)}
    (hge : ∀ p ∈ l, 0 ≤ p.1) (hne : l ≠ []) :
    ∃ p ∈ l, p.1 = collectedMax l := by
  rcases foldlMax_cases l 0 with h | ⟨p, hp, h⟩
  · obtain ⟨p0, hp0⟩ : ∃ p0, p0 ∈ l := List.exists_mem_of_ne_nil l hne
    refine ⟨p0, hp0, ?_⟩
    have h1 := collectedMax_ge hp0
    have h2 := hge p0 hp0
    rw [show collectedMax l = 0 from h] at h1 ⊢
    omega
  · exact ⟨p, hp, h.symm⟩

theorem collectedMin_nonneg {l : List (Int × ColorM)}
    (hge : ∀ p ∈ l, 0 ≤ p.1) : 0 ≤ collectedMin l := by
  rcases foldlMin_cases l maxSafeInteger with h | ⟨p, hp, h⟩
  · rw [show collectedMin l = maxSafeInteger from h]; simp [maxSafeInteger]
  · rw [show collectedMin l = p.1 from h]; exact hge p hp

theorem collectedMax_nonneg (l : List (Int × ColorM)) : 0 ≤ collectedMax l :=
  foldlMax_ge_init l 0

/-- The collection pass is the concatenation of the kept submeshes'
contributions, in submesh order. -/
theorem meshCollect_eq_flatten (g : G3dM) (mesh : Int) :
    meshCollect g mesh
      = ((intRange (getMeshSubmeshRange g mesh).1
          (getMeshSubmeshRange g mesh).2).map (keptPairs g)).flatten := by
  simp only [meshCollect]
  have : ∀ (l : List Int) (acc : List (Int × ColorM)),
      l.foldl (fun acc submesh =>
        match getSubmeshColor g submesh with
        | none => acc
        | some c => acc ++ (submeshIndexValues g submesh).map (fun v => (v, c))) acc
      = acc ++ (l.map (keptPairs g)).flatten := by
    intro l
    induction l with
    | nil => intro acc; simp
    | cons s t ih =>
      intro acc
      simp only [List.foldl_cons, List.map_cons, List.flatten_cons]
      cases hc : getSubmeshColor g s with
      | none => rw [ih]; simp [keptPairs, hc]
      | some c => rw [ih]; simp [keptPairs, hc, List.append_assoc]
  rw [this]
  simp

/-- Every collected vertex index is an entry of the global index array, or
the out-of-range default 0. -/
theorem meshCollect_val (g : G3dM) (mesh : Int) :
    ∀ p ∈ meshCollect g mesh, p.1 = 0 ∨ p.1 ∈ g.indices := by
  intro p hp
  rw [meshCollect_eq_flatten] at hp
  rcases List.mem_flatten.mp hp with ⟨part, hpart, hmem⟩
  rcases List.mem_map.mp hpart with ⟨s, hs, hpk⟩
  subst hpk
  simp only [keptPairs] at hmem
  cases hc : getSubmeshColor g s with
  | none => rw [hc] at hmem; simp at hmem
  | some c =>
    rw [hc] at hmem
    rcases List.mem_map.mp hmem with ⟨v, hv, hvp⟩
    simp only [submeshIndexValues, List.mem_map] at hv
    rcases hv with ⟨idx, hidx, hval⟩
    cases hj : jsIdx g.indices idx with
    | none => left; rw [← hvp]; simp [← hval, hj]
    | some w =>
      right
      rw [← hvp]
      simp only [← hval, hj, Option.getD_some]
      simp only [jsIdx] at hj
      split at hj
      · rename_i hcond
        simp only [Option.some.injEq] at hj
        rw [← hj]
        exact List.get_mem _ _ _
      · exact Option.noConfusion hj

end VimSpec

namespace VimSpec

/-- The mesh slice recorded at position `m` of the builder's output carries
the rebased-copied index buffer of mesh `start + m`, and exists only when
that mesh kept at least one submesh. -/
theorem allocGo_get_fields (g : G3dM) :
    ∀ (n start : Nat) (scratch : List ℚ) (m : Nat) (mg : MeshGeom),
      (allocGo g n start scratch).meshes.get? m = some (some mg) →
      mg.indexAttr = rebasedIndexAttr g ((start + m : Nat) : Int)
      ∧ meshCollect g ((start + m : Nat) : Int) ≠ [] := by
  intro n
  induction n with
  | zero =>
    intro start scratch m mg h
    simp [allocGo] at h
  | succ k ih =>
    intro start scratch m mg h
    simp only [allocGo] at h
    cases m with
    | zero =>
      simp only [List.get?_cons_zero, Option.some.injEq] at h
      revert h
      simp only [buildMeshGeom]
      split
      · intro h; exact Option.noConfusion h
      · rename_i hne
        intro h
        simp only [Option.some.injEq] at h
        subst h
        constructor
        · simp
        · simpa using hne
    | succ m' =>
      simp only [List.get?_cons_succ] at h
      have := ih (start + 1) _ m' mg h
      rwa [show start + 1 + m' = start + (m' + 1) from by omega] at this

/-- Claim C9 core: every value of the produced index buffer is at least 0
and strictly below `max − min + 1`. -/
theorem c9_core (g : G3dM) (mesh : Nat) (mg : MeshGeom)
    (hvalid : ∀ v ∈ g.indices, 0 ≤ v ∧ v < 2 ^ 31)
    (hmg : (allocateGeometry g).meshes.get? mesh = some (some mg)) :
    meshCollect g mesh ≠ []
    ∧ (∀ p ∈ meshCollect g (mesh : Int), collectedMin (meshCollect g mesh) ≤ p.1
        ∧ p.1 ≤ collectedMax (meshCollect g mesh))
    ∧ (∃ p ∈ meshCollect g (mesh : Int), p.1 = collectedMin (meshCollect g mesh))
    ∧ (∃ p ∈ meshCollect g (mesh : Int), p.1 = collectedMax (meshCollect g mesh))
    ∧ ∀ v ∈ mg.indexAttr,
        0 ≤ v ∧ v < collectedMax (meshCollect g mesh)
          - collectedMin (meshCollect g mesh) + 1 := by
  have hfields := allocGo_get_fields g _ 0 _ mesh mg hmg
  rw [show (0 : Nat) + mesh = mesh from by omega] at hfields
  obtain ⟨hidx, hne⟩ := hfields
  have hbounds : ∀ p ∈ meshCollect g (mesh : Int), 0 ≤ p.1 ∧ p.1 < 2 ^ 31 := by
    intro p hp
    rcases meshCollect_val g mesh p hp with h0 | hmem
    · rw [h0]; omega
    · exact hvalid _ hmem
  refine ⟨hne, fun p hp => ⟨collectedMin_le hp, collectedMax_ge hp⟩,
    collectedMin_attained (fun p hp => by
      have := (hbounds p hp).2
      simp only [maxSafeInteger]; omega) hne,
    collectedMax_attained (fun p hp => (hbounds p hp).1) hne, ?_⟩
  intro v hv
  rw [hidx] at hv
  simp only [rebasedIndexAttr, List.mem_map] at hv
  rcases hv with ⟨p, hp, hvp⟩
  have hmn := collectedMin_le hp
  have hmx := collectedMax_ge hp
  have hmin0 : 0 ≤ collectedMin (meshCollect g mesh) :=
    collectedMin_nonneg (fun p hp => (hbounds p hp).1)
  have hp31 := hbounds p hp
  have hpow31 : ((2 : Int) ^ 31) = 2147483648 := by norm_num
  have hpow32 : ((2 : Int) ^ 32) = 4294967296 := by norm_num
  have hmod : (p.1 - collectedMin (meshCollect g mesh)).emod (2 ^ 32)
      = p.1 - collectedMin (meshCollect g mesh) :=
    Int.emod_eq_of_lt (by omega) (by omega)
  rw [← hvp, hmod]
  omega

end VimSpec

namespace VimSpec

/-- The scratch half of one mesh step is the write pass. -/
theorem buildMeshGeom_snd (g : G3dM) (mesh : Int) (scratch : List ℚ) :
    (buildMeshGeom g mesh scratch).2 = writeColors scratch (meshCollect g mesh) := by
  simp only [buildMeshGeom]
  split <;> rfl

theorem allocGo_scratch_length (g : G3dM) :
    ∀ (n start : Nat) (scratch : List ℚ),
      (allocGo g n start scratch).colorScratch.length = scratch.length := by
  intro n
  induction n with
  | zero => intro start scratch; rfl
  | succ k ih =>
    intro start scratch
    simp only [allocGo]
    rw [ih, buildMeshGeom_snd, writeColors_length]

/-- If every vertex collected by the meshes still to be processed avoids the
slice `[a, b)`, the remaining passes leave that slice of the scratch buffer
unchanged. -/
theorem allocGo_slice_untouched (g : G3dM) :
    ∀ (n start : Nat) (scratch : List ℚ) (a b : Nat),
      (∀ k, k < n → ∀ p ∈ meshCollect g ((start + k : Nat) : Int), 0 ≤ p.1 →
        3 * p.1 + 2 < (a : Int) ∨ (b : Int) ≤ 3 * p.1
          ∨ (scratch.length : Int) ≤ 3 * p.1) →
      sliceN (allocGo g n start scratch).colorScratch a b = sliceN scratch a b := by
  intro n
  induction n with
  | zero => intro start scratch a b h; rfl
  | succ k ih =>
    intro start scratch a b h
    simp only [allocGo]
    rw [buildMeshGeom_snd]
    rw [ih (start + 1) _ a b (by
      intro k' hk' p hp hp0
      rw [writeColors_length]
      have := h (k' + 1) (by omega) p (by
        rwa [show start + (k' + 1) = start + 1 + k' from by omega]) hp0
      exact this)]
    exact sliceN_writeColors _ _ _ _ (by
      intro p hp hp0
      exact h 0 (by omega) p (by simpa using hp) hp0)

/-- For a nonnegative offset the subarray clamp is `min ⌊v⌋ length`. -/
theorem jsClampIndex_nonneg (len : Nat) (v : Int) (hv : 0 ≤ v) :
    jsClampIndex len v = min v.toNat len := by
  simp only [jsClampIndex]
  rw [if_neg (by omega)]

/-- Claim C4 core (amended): with pairwise-disjoint vertex ranges across the
live meshes, the final contents of every returned color view agree with the
snapshot taken when the mesh was built; and index buffers are copies. -/
theorem allocGo_slice_stable (g : G3dM)
    (hvalid : ∀ v ∈ g.indices, 0 ≤ v)
    (hd : ∀ m1 m2 : Nat, m1 < g.meshSubmeshes.length →
      m2 < g.meshSubmeshes.length → m1 ≠ m2 →
      meshCollect g (m1 : Int) ≠ [] → meshCollect g (m2 : Int) ≠ [] →
      collectedMax (meshCollect g (m1 : Int)) < collectedMin (meshCollect g (m2 : Int))
      ∨ collectedMax (meshCollect g (m2 : Int)) < collectedMin (meshCollect g (m1 : Int))) :
    ∀ (n start : Nat) (scratch : List ℚ),
      start + n ≤ g.meshSubmeshes.length →
      ∀ (m : Nat) (mg : MeshGeom),
        (allocGo g n start scratch).meshes.get? m = some (some mg) →
        sliceN (allocGo g n start scratch).colorScratch mg.colorStart mg.colorEnd
          = mg.colorsAtCreation := by
  intro n
  induction n with
  | zero => intro start scratch hr m mg h; simp [allocGo] at h
  | succ k ih =>
    intro start scratch hr m mg h
    have hnonneg : ∀ (mi : Int), ∀ p ∈ meshCollect g mi, 0 ≤ p.1 := by
      intro mi p hp
      rcases meshCollect_val g mi p hp with h0 | hmem
      · omega
      · exact hvalid _ hmem
    cases m with
    | succ m' =>
      simp only [allocGo, List.get?_cons_succ] at h ⊢
      exact ih (start + 1) _ (by omega) m' mg h
    | zero =>
      simp only [allocGo, List.get?_cons_zero, Option.some.injEq] at h ⊢
      revert h
      simp only [buildMeshGeom]
      split
      · intro h; exact Option.noConfusion h
      · rename_i hne
        intro h
        simp only [Option.some.injEq] at h
        subst h
        simp only []
        set collect := meshCollect g ((start : Nat) : Int) with hcollect
        set scratch' := writeColors scratch collect with hscratch'
        set mn := collectedMin collect with hmn
        set mx := collectedMax collect with hmx
        set cs := jsClampIndex scratch'.length (mn * 3) with hcs
        set ce := jsClampIndex scratch'.length ((mx + 1) * 3) with hce
        have hcolne : collect ≠ [] := by simpa [hcollect] using hne
        have hmn0 : 0 ≤ mn := collectedMin_nonneg (hnonneg _)
        have hmx0 : 0 ≤ mx := collectedMax_nonneg _
        have hsub : jsSubarray scratch' (mn * 3) ((mx + 1) * 3)
            = sliceN scratch' cs ce := rfl
        rw [hsub]
        by_cases hord : ce ≤ cs
        · rw [sliceN_of_le _ _ _ hord, sliceN_of_le _ _ _ hord]
        · push_neg at hord
          have hceL : ce ≤ scratch'.length := by
            rw [hce, jsClampIndex_nonneg _ _ (by omega)]
            omega
          have hcsv : (cs : Int) = 3 * mn := by
            rw [hcs, jsClampIndex_nonneg _ _ (by omega)] at hord ⊢
            have h1 : (mn * 3).toNat < scratch'.length := by omega
            rw [min_eq_left (by omega)]
            omega
          have hcev : (ce : Int) ≤ 3 * (mx + 1) := by
            rw [hce, jsClampIndex_nonneg _ _ (by omega)]
            have : ((min ((mx + 1) * 3).toNat scratch'.length : Nat) : Int)
                ≤ (((mx + 1) * 3).toNat : Int) := by
              have := min_le_left ((mx + 1) * 3).toNat scratch'.length
              omega
            omega
          rw [allocGo_slice_untouched g k (start + 1) scratch' cs ce (by
            intro k' hk' p hp hp0
            have hm2lt : start + 1 + k' < g.meshSubmeshes.length := by omega
            have hm1lt : start < g.meshSubmeshes.length := by omega
            have hpne : meshCollect g ((start + 1 + k' : Nat) : Int) ≠ [] := by
              intro hc; rw [hc] at hp; simp at hp
            have hdisj := hd start (start + 1 + k') hm1lt hm2lt (by omega)
              hcolne hpne
            have hpmin := collectedMin_le hp
            have hpmax := collectedMax_ge hp
            rcases hdisj with hcase | hcase
            · right; left
              have : mx + 1 ≤ collectedMin (meshCollect g ((start + 1 + k' : Nat) : Int)) := by
                rw [← hmx] at hcase; omega
              omega
            · left
              have : collectedMax (meshCollect g ((start + 1 + k' : Nat) : Int)) < mn := by
                rw [← hmn] at hcase; exact hcase
              omega)]

end VimSpec

namespace VimSpec

theorem splitOnUnit_ne_nil (sep : Nat) (l : List Nat) :
    splitOnUnit sep l ≠ [] := by
  cases l with
  | nil => simp [splitOnUnit]
  | cons c rest =>
    simp only [splitOnUnit]
    split
    · simp
    · split <;> simp

/-- Splitting a string with a trailing separator appends one empty field. -/
theorem splitOnUnit_append_sep (sep : Nat) (t : List Nat) :
    splitOnUnit sep (t ++ [sep])
      = splitOnUnit sep t ++ ([[]] : List JSString) := by
  induction t with
  | nil => simp [splitOnUnit]
  | cons c rest ih =>
    simp only [List.cons_append, splitOnUnit]
    by_cases hc : c = sep
    · simp only [if_pos hc]
      rw [show rest.append [sep] = rest ++ [sep] from rfl, ih]
      simp
    · simp only [if_neg hc]
      cases hs : splitOnUnit sep rest with
      | nil => exact absurd hs (splitOnUnit_ne_nil sep rest)
      | cons t0 ts =>
        rw [show rest.append [sep] = rest ++ [sep] from rfl, ih, hs]
        simp

/-- C5 core (amended): the model assembler splits the strings buffer on NUL
without first stripping the trailing NUL, so a NUL-terminated buffer decodes
to the container name rule's list plus one trailing empty string. -/
theorem c5_core (bytes : List Nat)
    (h : (utf8Decode bytes).getLast? = some 0) :
    constructVIMStrings bytes
      = bfastNameSplit bytes ++ ([[]] : List JSString) := by
  obtain ⟨t, ht⟩ : ∃ t, utf8Decode bytes = t ++ [0] := by
    cases hj : utf8Decode bytes with
    | nil => rw [hj] at h; simp at h
    | cons a l =>
      refine ⟨(a :: l).dropLast, ?_⟩
      rw [hj] at h
      conv_lhs => rw [← List.dropLast_append_getLast (l := a :: l) (by simp)]
      rw [show (a :: l).getLast (by simp) = 0 from by
        have := List.getLast?_eq_getLast (a :: l) (by simp)
        rw [this] at h
        exact Option.some.inj h]
  simp only [constructVIMStrings, bfastNameSplit, ht]
  rw [if_neg (by simp)]
  rw [List.dropLast_concat, splitOnUnit_append_sep]

end VimSpec

namespace VimSpec

/-- C6 core (amended): single-column dispatch of the entity-table decoder.
`colName` is the segment of the buffer name between the first and second
`':'`. -/
theorem c6_core (hdr : BFastHeader) (name : JSString) (buffer : List Nat)
    (tag colName : JSString) (restParts : List JSString)
    (hsplit : splitOnUnit 58 name = tag :: colName :: restParts) :
    constructEntityTable ⟨hdr, [name], [buffer]⟩
      = (if tag = strUnits "numeric" then
          .ok [(some colName, .float64View (chunk8 buffer))]
        else if tag = strUnits "string" ∨ tag = strUnits "index" then
          .ok [(some colName, .int32View (int32Words buffer))]
        else if tag = strUnits "properties" then
          .ok [(some (strUnits "properties"), .rawBytes buffer)]
        else .error (.unknownColumnType tag)) := by
  simp only [constructEntityTable, constructEntityTableGo, hsplit,
    List.headD_cons, List.get?_cons_succ, List.get?_cons_zero]
  split
  · rfl
  · split
    · rfl
    · split
      · rfl
      · rfl

/-- C7 core (amended): when all four table/column lookups succeed, the 3-hop
name lookup cannot throw, and a missing *index* at any hop flows through to
"no name" (`undefined`). -/
theorem c7_core (bim : BimV) (strings : List JSString) (i : Int)
    (t col t2 col2 : _)
    (h1 : mapGet bim (strUnits "Vim.Node") = some t)
    (h2 : mapGet t (strUnits "Rvt.Element") = some col)
    (h3 : mapGet bim (strUnits "Rvt.Element") = some t2)
    (h4 : mapGet t2 (strUnits "Name") = some col2) :
    ∃ name, getElementNameFromNodeIndex bim strings i = .ok name
      ∧ (jsIdx col i = none → name = none)
      ∧ (∀ e, jsIdx col i = some e → jsIdx col2 e = none → name = none)
      ∧ (∀ e s, jsIdx col i = some e → jsIdx col2 e = some s →
          jsIdx strings s = none → name = none) := by
  refine ⟨((jsIdx col i).bind (fun e => jsIdx col2 e)).bind
    (fun s => jsIdx strings s), ?_, ?_, ?_, ?_⟩
  · simp [getElementNameFromNodeIndex, h1, h2, h3, h4]
  · intro h; simp [h]
  · intro e he hn; simp [he, hn]
  · intro e s he hs hn; simp [he, hs, hn]

/-- C8 parts: color resolution of a submesh. -/
theorem c8_sentinel (g : G3dM) (s m : Int)
    (hm : jsIdx g.submeshMaterial s = some m) (hneg : m < 0) :
    getSubmeshColor g s = some defaultColor := by
  simp [getSubmeshColor, hm, hneg]

theorem c8_transparent (g : G3dM) (s m : Int) (a : ℚ)
    (hm : jsIdx g.submeshMaterial s = some m) (hpos : 0 ≤ m)
    (ha : jsIdx g.materialColors (m * g.colorArity + 3) = some a)
    (halpha : a < 9 / 10) :
    getSubmeshColor g s = none := by
  simp [getSubmeshColor, hm, ha, jsLtQ, halpha, show ¬ m < 0 from by omega]

theorem c8_opaque (g : G3dM) (s m : Int) (a : ℚ)
    (hm : jsIdx g.submeshMaterial s = some m) (hpos : 0 ≤ m)
    (ha : jsIdx g.materialColors (m * g.colorArity + 3) = some a)
    (halpha : ¬ a < 9 / 10) :
    getSubmeshColor g s
      = some (colorFromArray g.materialColors (m * g.colorArity)) := by
  simp [getSubmeshColor, hm, ha, jsLtQ, halpha, show ¬ m < 0 from by omega]

end VimSpec

namespace VimSpec

/-- **C1.** The claim: after a full parse, the bounding volume handed to the
renderer is the union of the transformed bounding spheres of *every* live
instance — GPU-instanced and merged-static alike. The code computes exactly
that union for the instanced batches inside `applyMatrices`, but `parse`
then *overwrites* the scene's bounding sphere with the merged singleton
batch's own sphere (`sceneGeometry.boundingSphere = big.boundingSphere`),
discarding the instanced contribution. Evaluated at `exG3d` (mesh 0
instanced twice at x = ±100, mesh 1 a singleton near the origin): the
pipeline ends with the sphere of radius 1 around (1,0,0), while the
specified union of all three instances' spheres has radius 101. -/
theorem c1_final_sphere_drops_instanced_geometry :
    (parsePipeline exG3d).map (fun s => s.boundingSphere)
      = .ok ⟨⟨1, 0, 0⟩, 1⟩
    ∧ specUnionAllInstanceSpheres exG3d = some ⟨⟨1, 0, 0⟩, 101⟩
    ∧ (⟨⟨1, 0, 0⟩, 1⟩ : SphereM) ≠ ⟨⟨1, 0, 0⟩, 101⟩ :=
  ⟨by with_unfolding_all decide, by with_unfolding_all decide,
    by with_unfolding_all decide⟩

/-- **C2 (counterexample).** At the concrete container `exBFastBytes` the
parser succeeds with 1 name, 1 buffer and `numArrays = 2`, refuting the
claimed `names.length = buffers.length + 1 ∧ numArrays = buffers.length`
for the returned value. -/
theorem c2_container_counts_counterexample :
    (parseBFast exBFastBytes 0 68).map
        (fun bf => (bf.names.length, bf.buffers.length, bf.header.numArrays))
      = .ok (1, 1, 2)
    ∧ ¬((1 : Nat) = 1 + 1 ∧ (2 : Int) = 1) :=
  ⟨by decide, by decide⟩

/-- **C2 (amended).** For every container value successfully returned by the
byte-container parser, `names.length = buffers.length` and
`numArrays = buffers.length + 1` (equivalently
`names.length = numArrays − 1`): the name buffer has already been split off
the returned buffer list. -/
theorem c2_container_counts (bytes : List Nat) (byteOffset byteLength : Nat)
    (bf : BFast) (h : parseBFast bytes byteOffset byteLength = .ok bf) :
    bf.names.length = bf.buffers.length
    ∧ bf.header.numArrays = (bf.buffers.length : Int) + 1 :=
  parseBFast_counts bytes byteOffset byteLength bf h

/-- Witness for C2 at the concrete container `exBFastBytes`. -/
theorem c2_container_counts_witness :
    ∃ bf, parseBFast exBFastBytes 0 68 = .ok bf
      ∧ bf.names.length = bf.buffers.length
      ∧ bf.header.numArrays = (bf.buffers.length : Int) + 1 := by
  have h : parseBFast exBFastBytes 0 68
      = .ok ⟨⟨49061, 64, 68, 2⟩, [[97]], [[7, 9]]⟩ := by decide
  exact ⟨_, h, c2_container_counts _ _ _ _ h⟩

/-- **C3 (counterexample).** After a full parse of `exG3d`, instance 2 is
live (mesh index 1 ≥ 0, mesh slice non-null) yet has no entry in the
node-index table: reference-count-1 instances are folded into the merged
batch without a picking entry, so the table is not total over live
instances. -/
theorem c3_node_map_counterexample :
    (parsePipeline exG3d).map
        (fun s => mapGet s.nodeIndexToMeshInstance 2) = .ok none
    ∧ exG3d.instanceMeshes.get? 2 = some 1
    ∧ ((allocateGeometry exG3d).meshes.getD 1 none).isSome = true :=
  ⟨by with_unfolding_all decide, by decide, by with_unfolding_all decide⟩

/-- **C3 (amended).** The node-index table built by `applyMatrices` is total
exactly over the instances placed into an *instanced* batch: instance `i`
has an entry iff its mesh index is a non-negative index of a non-null
allocated batch, and then exactly one — `(batch, slot)` with the slot equal
to the number of earlier instances carrying the same mesh index (encounter
order; the first instance of a mesh gets slot 0). Reference-count-1
instances (merged into the static batch) never appear. -/
theorem c3_node_map_totality (meshes : List (Option Nat))
    (geoms : List (Option MeshGeom)) (instanceMeshes : List Int)
    (transforms : List ℚ) (i : Nat) :
    mapGet (applyMatricesM meshes geoms instanceMeshes
        transforms).nodeIndexToMeshInstance i
      = match instanceMeshes.get? i with
        | none => none
        | some m => (liveBatch meshes m).map
            (fun mid => (mid, (earlierSameMeshCount instanceMeshes i : Int))) :=
  applyMatricesM_nodeMap meshes geoms instanceMeshes transforms i

/-- **C4 (counterexample).** In `exC4` the two meshes share vertex 1. After
both meshes are processed, mesh 0's returned color view `[0, 6)` into the
shared scratch reads `[½,½,½,1,0,0]`, but `[½,½,½,½,½,½]` was its content
when mesh 0 was built: the color buffer is not copied, the scratch is
exposed, and processing mesh 1 mutated mesh 0's returned geometry. -/
theorem c4_color_aliasing_counterexample :
    ((allocateGeometry exC4).meshes.map (fun o => o.map
        (fun mg => (mg.colorStart, mg.colorEnd, mg.colorsAtCreation))))
      = [some (0, 6, [1 / 2, 1 / 2, 1 / 2, 1 / 2, 1 / 2, 1 / 2]),
          some (3, 6, [1, 0, 0])]
    ∧ sliceN (allocateGeometry exC4).colorScratch 0 6
        = [1 / 2, 1 / 2, 1 / 2, 1, 0, 0]
    ∧ ([1 / 2, 1 / 2, 1 / 2, 1, 0, 0] : List ℚ)
        ≠ [1 / 2, 1 / 2, 1 / 2, 1 / 2, 1 / 2, 1 / 2] :=
  ⟨by with_unfolding_all decide, by with_unfolding_all decide,
    by with_unfolding_all decide⟩

/-- **C4 (amended).** The rebasing step copies the *index* buffer (the
returned index attribute is a pure function of the input), but the *color*
buffer is a view into the shared scratch arena; the scratch is exposed and a
later mesh sharing vertices can rewrite an earlier mesh's colors. When the
live meshes' vertex ranges are pairwise disjoint, every returned color view
still holds, after all meshes are processed, exactly what it held when its
mesh was built. -/
theorem c4_disjoint_ranges_no_mutation (g : G3dM)
    (hvalid : ∀ v ∈ g.indices, 0 ≤ v)
    (hd : ∀ m1 : Nat, m1 < g.meshSubmeshes.length →
      ∀ m2 : Nat, m2 < g.meshSubmeshes.length → m1 ≠ m2 →
      meshCollect g (m1 : Int) ≠ [] → meshCollect g (m2 : Int) ≠ [] →
      collectedMax (meshCollect g (m1 : Int))
          < collectedMin (meshCollect g (m2 : Int))
        ∨ collectedMax (meshCollect g (m2 : Int))
          < collectedMin (meshCollect g (m1 : Int)))
    (mesh : Nat) (mg : MeshGeom)
    (hmg : (allocateGeometry g).meshes.get? mesh = some (some mg)) :
    mg.indexAttr = rebasedIndexAttr g mesh
    ∧ sliceN (allocateGeometry g).colorScratch mg.colorStart mg.colorEnd
        = mg.colorsAtCreation := by
  constructor
  · have := (allocGo_get_fields g _ 0 _ mesh mg hmg).1
    rwa [show (0 : Nat) + mesh = mesh from by omega] at this
  · exact allocGo_slice_stable g hvalid
      (fun m1 m2 h1 h2 => hd m1 h1 m2 h2) _ 0 _ (by omega) mesh mg hmg

/-- Witness for C4 at `exG3d` (meshes on disjoint vertex ranges 0–1 and
2–3), mesh 0. -/
theorem c4_disjoint_ranges_no_mutation_witness :
    exMesh0.indexAttr = rebasedIndexAttr exG3d 0
    ∧ sliceN (allocateGeometry exG3d).colorScratch exMesh0.colorStart
        exMesh0.colorEnd = exMesh0.colorsAtCreation :=
  c4_disjoint_ranges_no_mutation exG3d (by decide)
    (by
      intro m1 h1 m2 h2 hne hc1 hc2
      rw [show exG3d.meshSubmeshes.length = 2 from rfl] at h1 h2
      interval_cases m1 <;> interval_cases m2 <;>
        first
          | exact absurd rfl hne
          | (with_unfolding_all decide))
    0 exMesh0 (by with_unfolding_all decide)

end VimSpec

namespace VimSpec

/-- **C5 (counterexample).** For the strings buffer `"a\0"` the model
assembler decodes `["a", ""]` — a trailing empty string — while the
container name rule (strip one trailing NUL, then split) yields `["a"]`:
the two splitting rules differ, refuting the claim. -/
theorem c5_strings_split_counterexample :
    constructVIMStrings [97, 0] = [[97], []]
    ∧ bfastNameSplit [97, 0] = [[97]]
    ∧ constructVIMStrings [97, 0] ≠ bfastNameSplit [97, 0] :=
  ⟨by decide, by decide, by decide⟩

/-- **C5 (amended).** The model assembler splits the strings buffer on NUL
*without* stripping the trailing NUL first; consequently, for every strings
buffer whose decoded text ends in a NUL, the decoded list is the container
name rule's list (one entry per NUL-terminated string) plus one trailing
empty string. -/
theorem c5_strings_split_trailing_empty (bytes : List Nat)
    (h : (utf8Decode bytes).getLast? = some 0) :
    constructVIMStrings bytes
      = bfastNameSplit bytes ++ ([[]] : List JSString) :=
  c5_core bytes h

/-- Witness for C5 at the buffer `"a\0"`. -/
theorem c5_strings_split_trailing_empty_witness :
    constructVIMStrings [97, 0]
      = bfastNameSplit [97, 0] ++ ([[]] : List JSString) :=
  c5_strings_split_trailing_empty [97, 0] (by decide)

/-- **C6 (counterexample).** A buffer named `"properties:Foo"` (type tag
`properties`, column name `Foo`) is stored under the literal key
`'properties'`, not under the column name `Foo`, refuting the claim that
every column is stored under the remainder of its name after the first
`':'`. -/
theorem c6_properties_key_counterexample :
    constructEntityTable exC6
      = .ok [(some (strUnits "properties"), .rawBytes [1, 2, 3, 4])]
    ∧ (splitOnUnit 58 (strUnits "properties:Foo")).get? 1
        = some (strUnits "Foo")
    ∧ mapGet [(some (strUnits "properties"),
        ColumnData.rawBytes [1, 2, 3, 4])] (some (strUnits "Foo")) = none :=
  ⟨by decide, by decide, by decide⟩

/-- **C6 (amended).** For a single inner buffer, the decoder splits the name
on every `':'` and dispatches on the leading tag: `numeric` stores an
8-byte-float view and `string`/`index` a 4-byte-int view, each under the
segment of the name *between the first and second* `':'`; `properties`
stores the uninterpreted byte range under the fixed key `'properties'`
(regardless of the column name); any other tag is a hard failure. -/
theorem c6_entity_column_dispatch (hdr : BFastHeader) (name : JSString)
    (buffer : List Nat) (tag colName : JSString) (restParts : List JSString)
    (hsplit : splitOnUnit 58 name = tag :: colName :: restParts) :
    constructEntityTable ⟨hdr, [name], [buffer]⟩
      = (if tag = strUnits "numeric" then
          .ok [(some colName, .float64View (chunk8 buffer))]
        else if tag = strUnits "string" ∨ tag = strUnits "index" then
          .ok [(some colName, .int32View (int32Words buffer))]
        else if tag = strUnits "properties" then
          .ok [(some (strUnits "properties"), .rawBytes buffer)]
        else .error (.unknownColumnType tag)) :=
  c6_core hdr name buffer tag colName restParts hsplit

/-- Witness for C6 at an `index:Nodes` column. -/
theorem c6_entity_column_dispatch_witness :
    constructEntityTable ⟨exHeader, [strUnits "index:Nodes"], [[5, 0, 0, 0]]⟩
      = (if strUnits "index" = strUnits "numeric" then
          .ok [(some (strUnits "Nodes"),
            .float64View (chunk8 [5, 0, 0, 0]))]
        else if strUnits "index" = strUnits "string"
            ∨ strUnits "index" = strUnits "index" then
          .ok [(some (strUnits "Nodes"), .int32View (int32Words [5, 0, 0, 0]))]
        else if strUnits "index" = strUnits "properties" then
          .ok [(some (strUnits "properties"), .rawBytes [5, 0, 0, 0])]
        else .error (.unknownColumnType (strUnits "index"))) :=
  c6_entity_column_dispatch exHeader (strUnits "index:Nodes") [5, 0, 0, 0]
    (strUnits "index") (strUnits "Nodes") [] (by decide)

/-- **C7 (counterexample).** With an empty `bim` (no `Vim.Node` table), the
3-hop name lookup dereferences `undefined` and throws a `TypeError` instead
of returning "no name available", refuting the claim that absence of a
mapping at any hop is non-failing. -/
theorem c7_missing_table_throws_counterexample :
    getElementNameFromNodeIndex ([] : BimV) [] 0 = .error .typeError :=
  by decide

/-- **C7 (amended).** When the two tables and two columns of the 3-hop
lookup are all present, the lookup never fails: it returns `.ok name`, and a
missing *index entry* at any hop (node index out of the element column,
element index out of the name column, string index out of the string list)
yields `name = none` ("no name available"). A missing table or column, by
contrast, throws (see the counterexample). -/
theorem c7_index_miss_yields_no_name (bim : BimV) (strings : List JSString)
    (i : Int) (t col : _) (t2 col2 : _)
    (h1 : mapGet bim (strUnits "Vim.Node") = some t)
    (h2 : mapGet t (strUnits "Rvt.Element") = some col)
    (h3 : mapGet bim (strUnits "Rvt.Element") = some t2)
    (h4 : mapGet t2 (strUnits "Name") = some col2) :
    ∃ name, getElementNameFromNodeIndex bim strings i = .ok name
      ∧ (jsIdx col i = none → name = none)
      ∧ (∀ e, jsIdx col i = some e → jsIdx col2 e = none → name = none)
      ∧ (∀ e s, jsIdx col i = some e → jsIdx col2 e = some s →
          jsIdx strings s = none → name = none) :=
  c7_core bim strings i t col t2 col2 h1 h2 h3 h4

/-- Witness for C7 at `exBim` (all tables present, empty `Name` column). -/
theorem c7_index_miss_yields_no_name_witness :
    ∃ name, getElementNameFromNodeIndex exBim [] 0 = .ok name
      ∧ (jsIdx ([5] : List Int) (0 : Int) = none → name = none)
      ∧ (∀ e, jsIdx ([5] : List Int) (0 : Int) = some e →
          jsIdx ([] : List Int) e = none → name = none)
      ∧ (∀ e s, jsIdx ([5] : List Int) (0 : Int) = some e →
          jsIdx ([] : List Int) e = some s →
          jsIdx ([] : List JSString) s = none → name = none) :=
  c7_index_miss_yields_no_name exBim [] 0 [(strUnits "Rvt.Element", [5])] [5]
    [(strUnits "Name", [])] [] (by decide) (by decide) (by decide) (by decide)

end VimSpec

namespace VimSpec

/-- **C8.** Transparency filtering, as claimed: a submesh with a negative
(sentinel) material index keeps the fixed neutral gray (0.5, 0.5, 0.5); a
submesh whose material has alpha < 0.9 is skipped entirely; any other
submesh keeps its material's RGB. In the two-submesh scenario `exC8`
(submesh 0 opaque red with alpha 1, submesh 1 with alpha 0.2), the produced
mesh slice holds exactly the opaque submesh's three rebased indices. -/
theorem c8_transparency_filtering :
    (∀ (g : G3dM) (s m : Int), jsIdx g.submeshMaterial s = some m → m < 0 →
      getSubmeshColor g s = some defaultColor)
    ∧ (∀ (g : G3dM) (s m : Int) (a : ℚ), jsIdx g.submeshMaterial s = some m →
        0 ≤ m → jsIdx g.materialColors (m * g.colorArity + 3) = some a →
        a < 9 / 10 → getSubmeshColor g s = none)
    ∧ (∀ (g : G3dM) (s m : Int) (a : ℚ), jsIdx g.submeshMaterial s = some m →
        0 ≤ m → jsIdx g.materialColors (m * g.colorArity + 3) = some a →
        ¬a < 9 / 10 → getSubmeshColor g s
          = some (colorFromArray g.materialColors (m * g.colorArity)))
    ∧ defaultColor = ⟨1 / 2, 1 / 2, 1 / 2⟩
    ∧ ((allocateGeometry exC8).meshes.map (fun o => o.map
        (fun mg => mg.indexAttr)) = [some [0, 1, 2]])
    ∧ getSubmeshColor exC8 1 = none :=
  ⟨c8_sentinel, c8_transparent, c8_opaque, rfl,
    by with_unfolding_all decide, by with_unfolding_all decide⟩

/-- Witness for C8: the three color-resolution cases at concrete inputs —
the sentinel material of `exC4` submesh 0, and the alpha-0.2 and alpha-1
materials of `exC8`. -/
theorem c8_transparency_filtering_witness :
    getSubmeshColor exC4 0 = some defaultColor
    ∧ getSubmeshColor exC8 1 = none
    ∧ getSubmeshColor exC8 0
        = some (colorFromArray exC8.materialColors (0 * exC8.colorArity)) :=
  ⟨c8_transparency_filtering.1 exC4 0 (-1) (by decide) (by decide),
    c8_transparency_filtering.2.1 exC8 1 1 (1 / 5)
      (by decide) (by decide) (by with_unfolding_all decide)
      (by with_unfolding_all decide),
    c8_transparency_filtering.2.2.1 exC8 0 0 1
      (by decide) (by decide) (by with_unfolding_all decide)
      (by with_unfolding_all decide)⟩

/-- **C9.** Correct rebasing: for a mesh with at least one surviving
submesh, taking `min`/`max` to be the smallest and largest original vertex
indices occurring in the kept submeshes (the collection pass attains both),
every value of the produced slice's index buffer lies in
`[0, max − min + 1)`. The validity hypothesis is the G3D validation bound:
indices are non-negative 32-bit values. -/
theorem c9_rebased_index_bounds (g : G3dM) (mesh : Nat) (mg : MeshGeom)
    (hvalid : ∀ v ∈ g.indices, 0 ≤ v ∧ v < 2 ^ 31)
    (hmg : (allocateGeometry g).meshes.get? mesh = some (some mg)) :
    meshCollect g mesh ≠ []
    ∧ (∀ p ∈ meshCollect g (mesh : Int),
        collectedMin (meshCollect g mesh) ≤ p.1
        ∧ p.1 ≤ collectedMax (meshCollect g mesh))
    ∧ (∃ p ∈ meshCollect g (mesh : Int),
        p.1 = collectedMin (meshCollect g mesh))
    ∧ (∃ p ∈ meshCollect g (mesh : Int),
        p.1 = collectedMax (meshCollect g mesh))
    ∧ ∀ v ∈ mg.indexAttr,
        0 ≤ v ∧ v < collectedMax (meshCollect g mesh)
          - collectedMin (meshCollect g mesh) + 1 :=
  c9_core g mesh mg hvalid hmg

/-- Witness for C9 at mesh 0 of `exG3d`. -/
theorem c9_rebased_index_bounds_witness :
    meshCollect exG3d 0 ≠ []
    ∧ (∀ p ∈ meshCollect exG3d (0 : Int),
        collectedMin (meshCollect exG3d 0) ≤ p.1
        ∧ p.1 ≤ collectedMax (meshCollect exG3d 0))
    ∧ (∃ p ∈ meshCollect exG3d (0 : Int),
        p.1 = collectedMin (meshCollect exG3d 0))
    ∧ (∃ p ∈ meshCollect exG3d (0 : Int),
        p.1 = collectedMax (meshCollect exG3d 0))
    ∧ ∀ v ∈ exMesh0.indexAttr,
        0 ≤ v ∧ v < collectedMax (meshCollect exG3d 0)
          - collectedMin (meshCollect exG3d 0) + 1 :=
  c9_rebased_index_bounds exG3d 0 exMesh0 (by decide)
    (by with_unfolding_all decide)

/-- **C10.** A container header declaring `numArrays = 0` makes the parser
fail at the name-count check (0 names against −1 expected) rather than
return a container; every successfully returned container was declared with
at least one raw buffer; and the dedicated guard `buffers.length < 0`
("at least one buffer containing the names") is unsatisfiable — that error
is never the one reported. -/
theorem c10_zero_arrays_fails :
    (∀ (bytes : List Nat) (off len : Nat) (hdr : BFastHeader),
      off % 4 = 0 → ¬bytes.length < off + 4 * (len / 4) →
      BFastHeader.fromArray
        (int32Words ((bytes.drop off).take (4 * (len / 4)))) len = .ok hdr →
      hdr.numArrays = 0 →
      parseBFast bytes off len = .error .nameCountMismatch)
    ∧ (∀ (bytes : List Nat) (off len : Nat) (bf : BFast),
        parseBFast bytes off len = .ok bf → 1 ≤ bf.header.numArrays)
    ∧ (∀ (bytes : List Nat) (off len : Nat),
        parseBFast bytes off len ≠ .error .atLeastOneBuffer) := by
  refine ⟨parseBFast_zero_arrays, ?_, parseBFast_ne_atLeastOne⟩
  intro bytes off len bf h
  have h2 := (parseBFast_counts bytes off len bf h).2
  omega

/-- Witness for C10 at the concrete 32-byte header `exZeroArrays`
(`numArrays = 0`). -/
theorem c10_zero_arrays_fails_witness :
    parseBFast exZeroArrays 0 32 = .error .nameCountMismatch
    ∧ parseBFast exZeroArrays 0 32 ≠ .error .atLeastOneBuffer :=
  ⟨c10_zero_arrays_fails.1 exZeroArrays 0 32 ⟨49061, 32, 32, 0⟩
      (by decide) (by decide) (by decide) (by decide),
    c10_zero_arrays_fails.2.2 exZeroArrays 0 32⟩

end VimSpec
